import Mathlib

/-!
Verification of the tadpole-catcher scraper (src/app.py) against its
natural-language specification.

The development shallowly embeds the parts of `app.py` that the claims are
about:

* the Python string primitives used by the scraper (`str.replace`,
  `str.split`, and the `posixpath` functions `join`, `dirname`, `normpath`,
  `abspath` underlying `os.path` on POSIX);
* `Client.save_image` (lines 230-300), as a pure function over an explicit
  filesystem state, a network oracle (the list of responses successive
  `requests.get` calls would receive), and an event trace recording the
  side effects (directory creation, rate-limit sleep, network request,
  file write);
* the per-URL loop of `Client.download_images` (lines 320-324), which
  catches `DownloadError` only;
* the tile pagination of `Client.iter_monthyear` (lines 182-208);
* the per-match URL normalization of `Client.iter_urls` (lines 224-227).
-/

set_option autoImplicit false

namespace Tadpole

/-! ### Python string primitives

All functions work on `List Char` (`String.data`) so that everything is
structurally recursive and kernel-computable.  `replaceAux`, `splitOnAux`
and `countOccurAux` scan left to right; `skip` holds the tail of a pattern
occurrence that has been matched and must still be consumed, so that
occurrences are non-overlapping exactly as in CPython.  All patterns used
by the scraper are nonempty, which these models assume (an empty pattern
behaves as the identity scan here, unlike Python). -/

/-- Model of Python `s.replace(pat, repl)` (all non-overlapping occurrences,
left to right). -/
def replaceAux (pat repl : List Char) : List Char → List Char → List Char
  | _ :: skip, _ :: rest => replaceAux pat repl skip rest
  | _ :: _, [] => []
  | [], [] => []
  | [], c :: rest =>
    if !pat.isEmpty && pat.isPrefixOf (c :: rest) then
      repl ++ replaceAux pat repl (pat.drop 1) rest
    else
      c :: replaceAux pat repl [] rest

/-- Python `s.replace(pat, repl)` for nonempty `pat`. -/
def strReplace (s pat repl : String) : String :=
  ⟨replaceAux pat.data repl.data [] s.data⟩

/-- Attach a character to the head of the first chunk of a split result. -/
def consHead (c : Char) : List (List Char) → List (List Char)
  | [] => [[c]]
  | p :: ps => (c :: p) :: ps

/-- Model of Python `s.split(sep)` for nonempty `sep` (non-overlapping
occurrences, left to right; `"".split(sep) = [""]`). -/
def splitOnAux (sep : List Char) : List Char → List Char → List (List Char)
  | _ :: skip, _ :: rest => splitOnAux sep skip rest
  | _ :: _, [] => [[]]
  | [], [] => [[]]
  | [], c :: rest =>
    if !sep.isEmpty && sep.isPrefixOf (c :: rest) then
      [] :: splitOnAux sep (sep.drop 1) rest
    else
      consHead c (splitOnAux sep [] rest)

/-- Python `s.split(sep)` for nonempty `sep`. -/
def strSplitOn (s sep : String) : List String :=
  (splitOnAux sep.data [] s.data).map String.mk

/-- Number of (non-overlapping, left-to-right) occurrences of `pat`,
counted by the same scan as `replaceAux`/`splitOnAux`. -/
def countOccurAux (pat : List Char) : List Char → List Char → Nat
  | _ :: skip, _ :: rest => countOccurAux pat skip rest
  | _ :: _, [] => 0
  | [], [] => 0
  | [], c :: rest =>
    if !pat.isEmpty && pat.isPrefixOf (c :: rest) then
      1 + countOccurAux pat (pat.drop 1) rest
    else
      countOccurAux pat [] rest

/-- Occurrence count of `pat` in `s`, Python-style. -/
def countOccur (pat s : String) : Nat :=
  countOccurAux pat.data [] s.data

/-! ### posixpath primitives (`os.path` on POSIX) -/

/-- Does the character list start with `c`? -/
def headIs (l : List Char) (c : Char) : Bool :=
  match l with
  | [] => false
  | d :: _ => d == c

/-- Python `s.startswith(c)` for a single character `c`. -/
def startsWithChar (s : String) (c : Char) : Bool :=
  headIs s.data c

/-- Python `s.endswith(c)` for a single character `c`. -/
def endsWithChar (s : String) (c : Char) : Bool :=
  match s.data.getLast? with
  | some d => d == c
  | none => false

/-- `posixpath.join` for one extra component:
if `b` is absolute it resets the path, otherwise it is appended with a
separating `/` unless the path so far is empty or ends in `/`. -/
def pjoin2 (path b : String) : String :=
  if startsWithChar b '/' then b
  else if path = "" || endsWithChar path '/' then path ++ b
  else path ++ "/" ++ b

/-- `posixpath.join(a, *ps)`. -/
def pjoin (a : String) (ps : List String) : String :=
  ps.foldl pjoin2 a

/-- `posixpath.dirname`: everything up to the final `/`, with trailing
slashes stripped unless the head is all slashes. -/
def dirname (p : String) : String :=
  let headRev := p.data.reverse.dropWhile (fun c => !(c == '/'))
  if headRev ≠ [] ∧ headRev.any (fun c => !(c == '/')) then
    ⟨(headRev.dropWhile (fun c => c == '/')).reverse⟩
  else ⟨headRev.reverse⟩

/-- The `//`-but-not-`///` test of `posixpath.normpath` (POSIX allows a
path to begin with exactly two slashes). -/
def dblSlash (l : List Char) : Bool :=
  match l with
  | a :: b :: rest => a == '/' && b == '/' && !(headIs rest '/')
  | _ => false

/-- The component normalization loop of `posixpath.normpath`.  `acc` is the
`new_comps` stack in reverse order (head = most recent component). -/
def normComps (initSl : Bool) : List (List Char) → List (List Char) → List (List Char)
  | acc, [] => acc.reverse
  | acc, comp :: rest =>
    if comp = [] || comp = ['.'] then normComps initSl acc rest
    else if comp = ['.', '.'] then
      match acc with
      | [] =>
        if initSl then normComps initSl [] rest
        else normComps initSl [['.', '.']] rest
      | top :: tl =>
        if top = ['.', '.'] then normComps initSl (comp :: top :: tl) rest
        else normComps initSl tl rest
    else normComps initSl (comp :: acc) rest

/-- Python `sep.join(comps)` on character lists. -/
def joinComps (sep : List Char) : List (List Char) → List Char
  | [] => []
  | [x] => x
  | x :: y :: t => x ++ sep ++ joinComps sep (y :: t)

/-- `posixpath.normpath` on a character list. -/
def normpathL (l : List Char) : List Char :=
  if l = [] then ['.']
  else
    let initSl := headIs l '/'
    let comps := splitOnAux ['/'] [] l
    let newComps := normComps initSl [] comps
    let joined := joinComps ['/'] newComps
    let pre : List Char := if initSl then (if dblSlash l then ['/', '/'] else ['/']) else []
    let p := pre ++ joined
    if p = [] then ['.'] else p

/-- `posixpath.normpath`. -/
def normpath (s : String) : String :=
  ⟨normpathL s.data⟩

/-- `posixpath.abspath`, with the process working directory passed
explicitly (the source calls `os.getcwd()` implicitly). -/
def abspath (cwd s : String) : String :=
  normpath (if startsWithChar s '/' then s else pjoin2 cwd s)

/-! ### Data model -/

/-- The state `Client.save_image` reads when it builds a filename:
the `DownloadFolder` configuration value (default `''`, app.py line 41),
the process working directory used by `abspath`, and the `.text` of the
month/year elements stored by `iter_monthyear` (lines 204-205). -/
structure Ctx where
  DownloadFolder : String
  cwd : String
  monthText : String
  yearText : String
deriving DecidableEq, Repr

/-- One HTTP response as `save_image` observes it: `status_code`, the
`content-type` header, and the body as the chunk list produced by
`resp.iter_content(1024)`. -/
structure HttpResponse where
  status : Nat
  contentType : String
  chunks : List String
deriving DecidableEq, Repr

/-- Filesystem state: the set of existing files and directories (as lists
of absolute path strings). -/
structure FS where
  files : List String
  dirs : List String
deriving DecidableEq, Repr

/-- `os.path.isfile`. -/
def FS.isfile (fs : FS) (p : String) : Bool :=
  fs.files.contains p

/-- `os.path.isdir`. -/
def FS.isdir (fs : FS) (p : String) : Bool :=
  fs.dirs.contains p

/-- Observable side effects of one `save_image` call. -/
inductive Event where
  | makedirs (dir : String)
  | sleep
  | netGet (url : String)
  | fsWrite (path : String)
deriving DecidableEq, Repr

/-- How one `save_image` call ends.  The `raise…` constructors are the
exceptions the Python code can raise: `DownloadError` (line 300),
`ValueError` from unpacking `url.split("key=")` into two variables
(line 235), and an exception out of `requests.get` itself (modelled as the
network oracle being exhausted). -/
inductive SaveResult where
  | alreadyPresent (path : String)
  | completed (path : String)
  | skippedUnsupported (contentType : String)
  | raiseDownloadError (status : Nat) (url : String)
  | raiseValueError
  | raiseRequestsError
deriving DecidableEq, Repr

/-! ### save_image (app.py lines 230-300) -/

/-- The value `abspath(join(DownloadFolder, 'images', year, month,
'tadpole-%s-%s-%s.%s') % (month, year, key, ext))` of lines 239-246.
(The `%` formatting only has placeholders in the final component, so it is
modelled by splicing into that component; this assumes the other parts
contain no `%` directives, as every claim's inputs do.) -/
def candidate (ctx : Ctx) (key ext : String) : String :=
  abspath ctx.cwd
    (pjoin ctx.DownloadFolder
      ["images", ctx.yearText, ctx.monthText,
        "tadpole-" ++ ctx.monthText ++ "-" ++ ctx.yearText ++ "-" ++ key ++ "." ++ ext])

/-- Lines 262-264: `dr = dirname(filename_jpg); if not isdir(dr): os.makedirs(dr)`. -/
def prepDir (fs : FS) (dr : String) : FS × List Event :=
  if fs.isdir dr then (fs, [])
  else ({ fs with dirs := dr :: fs.dirs }, [Event.makedirs dr])

/-- Lines 288-297: stream the body to `filename`, opening the file lazily
on the first chunk (so an empty body creates no file). -/
def writeStream (filename : String) (resp : HttpResponse) (fs : FS) (evs : List Event) :
    SaveResult × FS × List Event :=
  match resp.chunks with
  | [] => (.completed filename, fs, evs)
  | _ :: _ =>
    (.completed filename, { fs with files := filename :: fs.files }, evs ++ [Event.fsWrite filename])

/-- `Client.save_image` (lines 230-300).  `responses` is the network
oracle: the responses successive `requests.get(url, ...)` calls would
return; the code performs at most one request. -/
def save_image (ctx : Ctx) (url : String) (responses : List HttpResponse) (fs : FS) :
    SaveResult × FS × List Event :=
  match strSplitOn url "key=" with
  | [_, key] =>
    -- lines 239-246: the three candidate filenames
    let filename_jpg := candidate ctx key "jpg"
    let filename_png := candidate ctx key "png"
    let filename_video := candidate ctx key "mp4"
    -- lines 249-257: dedup check, in source order jpg / video / png
    if fs.isfile filename_jpg then (.alreadyPresent filename_jpg, fs, [])
    else if fs.isfile filename_video then (.alreadyPresent filename_video, fs, [])
    else if fs.isfile filename_png then (.alreadyPresent filename_png, fs, [])
    else
      let dr := dirname filename_jpg
      let step := prepDir fs dr
      let evs := step.2 ++ [Event.sleep, Event.netGet url]
      match responses with
      | [] => (.raiseRequestsError, step.1, evs)
      | resp :: _ =>
        if resp.status = 200 then
          -- lines 274-286: content-type dispatch
          if resp.contentType = "image/jpeg" then writeStream filename_jpg resp step.1 evs
          else if resp.contentType = "image/png" then writeStream filename_png resp step.1 evs
          else if resp.contentType = "video/mp4" then writeStream filename_video resp step.1 evs
          else (.skippedUnsupported resp.contentType, step.1, evs)
        else
          -- lines 298-300: raise DownloadError
          (.raiseDownloadError resp.status url, step.1, evs)
  | _ =>
    -- line 235: `_, key = url.split("key=")` raises ValueError unless the
    -- split has exactly two parts, before anything else happens
    (.raiseValueError, fs, [])

/-! ### The per-URL loop of download_images (lines 320-324) -/

/-- One unit of work of the sync loop: the album context active when the
URL is processed, the URL, and its network oracle. -/
structure Item where
  ctx : Ctx
  url : String
  responses : List HttpResponse
deriving Repr

/-- How the per-URL loop ends: normally, or by an exception that is not a
`DownloadError` escaping the `try/except DownloadError` of lines 321-324. -/
inductive LoopOutcome where
  | finished
  | aborted (url : String) (exc : SaveResult)
deriving DecidableEq, Repr

/-- The `for url in self.iter_urls(): try: save_image(url) except
DownloadError: log` loop of lines 320-324.  Only `DownloadError` is
caught; any other exception escapes and ends the loop. -/
def download_images_loop : List Item → FS → LoopOutcome × FS
  | [], fs => (.finished, fs)
  | it :: rest, fs =>
    match save_image it.ctx it.url it.responses fs with
    | (.raiseValueError, fs', _) => (.aborted it.url .raiseValueError, fs')
    | (.raiseRequestsError, fs', _) => (.aborted it.url .raiseRequestsError, fs')
    | (_, fs', _) => download_images_loop rest fs'

/-- A sequence of whole sync runs: each run processes its item list from
the state the previous run left. -/
def sync_runs (runs : List (List Item)) (fs : FS) : FS :=
  runs.foldl (fun s items => (download_images_loop items s).2) fs

/-! ### iter_monthyear (lines 182-208) -/

/-- How the pagination generator's control flow leaves the loop:
a normal end of iteration (`StopIteration`), or `sys.exit(code)`
(a `SystemExit` that terminates the whole process). -/
inductive GenExit where
  | stopIteration
  | sysExit (code : Nat)
deriving DecidableEq, Repr

/-- `Client.iter_monthyear` (lines 182-208) over an abstract album source:
`tiles` is the sequence of (month text, year text) label pairs the
1-indexed positional xpath locator finds at indices 1, 2, ….  The `while
True` loop yields the pair at each index; when the lookup at index N+1
raises `NoSuchElementException`, the handler calls `sys.exit(0)`
(line 202).  Returns the yielded pairs and how the generator exits. -/
def iter_monthyear : List (String × String) → List (String × String) × GenExit
  | [] => ([], .sysExit 0)
  | t :: rest =>
    let r := iter_monthyear rest
    (t :: r.1, r.2)

/-! ### Per-match URL normalization of iter_urls (lines 224-227) -/

/-- Lines 224-227, applied to the group captured by the regex
`\("([^"]+)` from an album element's style attribute:
`url.replace('thumbnail=true', ''); url.replace('&thumbnail=true', '');
url = 'https://www.tadpoles.com' + url`.  Note the second replace runs on
the output of the first, and the host is prepended unconditionally. -/
def normalize_url (url : String) : String :=
  let u1 := strReplace url "thumbnail=true" ""
  let u2 := strReplace u1 "&thumbnail=true" ""
  "https://www.tadpoles.com" ++ u2

/-! ### General lemmas about the scanners -/

theorem strData_append (a b : String) : (a ++ b).data = a.data ++ b.data := rfl

theorem replaceAux_skip (pat repl : List Char) (s : Char) (sk : List Char)
    (c : Char) (rest : List Char) :
    replaceAux pat repl (s :: sk) (c :: rest) = replaceAux pat repl sk rest := rfl

theorem replaceAux_cons (pat repl : List Char) (c : Char) (rest : List Char) :
    replaceAux pat repl [] (c :: rest) =
      if (!pat.isEmpty && pat.isPrefixOf (c :: rest)) = true then
        repl ++ replaceAux pat repl (pat.drop 1) rest
      else
        c :: replaceAux pat repl [] rest := rfl

theorem countOccurAux_cons (pat : List Char) (c : Char) (rest : List Char) :
    countOccurAux pat [] (c :: rest) =
      if (!pat.isEmpty && pat.isPrefixOf (c :: rest)) = true then
        1 + countOccurAux pat (pat.drop 1) rest
      else
        countOccurAux pat [] rest := rfl

theorem splitOnAux_skip (sep : List Char) (s : Char) (sk : List Char)
    (c : Char) (rest : List Char) :
    splitOnAux sep (s :: sk) (c :: rest) = splitOnAux sep sk rest := rfl

theorem splitOnAux_cons (sep : List Char) (c : Char) (rest : List Char) :
    splitOnAux sep [] (c :: rest) =
      if (!sep.isEmpty && sep.isPrefixOf (c :: rest)) = true then
        [] :: splitOnAux sep (sep.drop 1) rest
      else
        consHead c (splitOnAux sep [] rest) := rfl

/-- A pattern only looks at the first `pat.length` characters. -/
theorem isPrefixOf_append_of_le (pat : List Char) :
    ∀ (s t : List Char), pat.length ≤ s.length →
      pat.isPrefixOf (s ++ t) = pat.isPrefixOf s := by
  induction pat with
  | nil => intro s t _; simp
  | cons p ps ih =>
    intro s t hle
    cases s with
    | nil => simp at hle
    | cons c cs =>
      simp only [List.cons_append, List.isPrefixOf_cons₂]
      rw [ih cs t (Nat.le_of_succ_le_succ hle)]

/-- If a pattern matches a list extended on the right, the unextended part
is an initial segment of the pattern (when it is at most as long). -/
theorem isPrefixOf_of_isPrefixOf_append (pat : List Char) :
    ∀ (s t : List Char), s.length ≤ pat.length →
      pat.isPrefixOf (s ++ t) = true → s.isPrefixOf pat = true := by
  induction pat with
  | nil =>
    intro s t hle _
    cases s with
    | nil => simp
    | cons c cs => simp at hle
  | cons p ps ih =>
    intro s t hle h
    cases s with
    | nil => simp
    | cons c cs =>
      simp only [List.cons_append, List.isPrefixOf_cons₂, Bool.and_eq_true, beq_iff_eq] at h ⊢
      exact ⟨h.1.symm, ih cs t (Nat.le_of_succ_le_succ hle) h.2⟩

/-- No occurrence of `pat` begins strictly inside `l` and continues past
its right end: every nonempty suffix of `l` that is shorter than `pat` is
not an initial segment of `pat`. -/
def noBoundaryMatch (pat l : List Char) : Bool :=
  l.tails.all fun s => s.isEmpty || Nat.ble pat.length s.length || !(s.isPrefixOf pat)

theorem noBoundaryMatch_tail {pat : List Char} {c : Char} {l : List Char}
    (h : noBoundaryMatch pat (c :: l) = true) : noBoundaryMatch pat l = true := by
  simp only [noBoundaryMatch, List.tails_cons, List.all_cons, Bool.and_eq_true] at h
  exact h.2

theorem noBoundaryMatch_head {pat : List Char} {c : Char} {l : List Char}
    (h : noBoundaryMatch pat (c :: l) = true) :
    pat.length ≤ (c :: l).length ∨ (c :: l).isPrefixOf pat = false := by
  simp only [noBoundaryMatch, List.tails_cons, List.all_cons, Bool.and_eq_true] at h
  have h1 := h.1
  simp only [List.isEmpty_cons, Bool.false_or, Bool.or_eq_true, Bool.not_eq_true'] at h1
  rcases h1 with h1 | h1
  · exact Or.inl (Nat.le_of_ble_eq_true h1)
  · exact Or.inr h1

/-- Single-character patterns can never straddle a boundary. -/
theorem noBoundaryMatch_single (c : Char) (l : List Char) :
    noBoundaryMatch [c] l = true := by
  simp only [noBoundaryMatch, List.all_eq_true]
  intro s _
  cases s with
  | nil => simp
  | cons a t => simp [Nat.ble_eq]

/-- The match test at a scan position does not change when the list is
extended past a clean boundary. -/
theorem match_eq_at_boundary {pat : List Char} {c : Char} {r l₂ : List Char}
    (h : pat.length ≤ (c :: r).length ∨ (c :: r).isPrefixOf pat = false) :
    pat.isPrefixOf (c :: (r ++ l₂)) = pat.isPrefixOf (c :: r) := by
  rcases h with h | h
  · have h2 := isPrefixOf_append_of_le pat (c :: r) l₂ h
    rwa [List.cons_append] at h2
  · rcases Nat.le_total pat.length (c :: r).length with hle | hle
    · have h2 := isPrefixOf_append_of_le pat (c :: r) l₂ hle
      rwa [List.cons_append] at h2
    · have hR : pat.isPrefixOf (c :: r) = false := by
        cases hp : pat.isPrefixOf (c :: r) with
        | false => rfl
        | true =>
          exfalso
          have hpre := List.isPrefixOf_iff_prefix.mp hp
          have h1 : pat.length = (c :: r).length :=
            Nat.le_antisymm (List.IsPrefix.length_le hpre) hle
          have heq : pat = c :: r := List.IsPrefix.eq_of_length hpre h1
          rw [heq] at h
          have h2 : (c :: r).isPrefixOf (c :: r) = true :=
            List.isPrefixOf_iff_prefix.mpr (List.prefix_refl _)
          rw [h2] at h
          cases h
      have hL : pat.isPrefixOf (c :: (r ++ l₂)) = false := by
        cases hp : pat.isPrefixOf (c :: (r ++ l₂)) with
        | false => rfl
        | true =>
          exfalso
          rw [← List.cons_append] at hp
          have h2 := isPrefixOf_of_isPrefixOf_append pat (c :: r) l₂ hle hp
          rw [h2] at h
          cases h
      rw [hL, hR]

/-- If a match occurs at the head, the pattern fits inside the list. -/
theorem length_le_of_isPrefixOf {pat l : List Char} (h : pat.isPrefixOf l = true) :
    pat.length ≤ l.length :=
  List.IsPrefix.length_le (List.isPrefixOf_iff_prefix.mp h)

/-- `str.replace` distributes over an append at a clean boundary. -/
theorem replaceAux_append (pat repl : List Char) :
    ∀ (l₁ skip l₂ : List Char), skip.length ≤ l₁.length →
      noBoundaryMatch pat l₁ = true →
      replaceAux pat repl skip (l₁ ++ l₂) =
        replaceAux pat repl skip l₁ ++ replaceAux pat repl [] l₂ := by
  intro l₁
  induction l₁ with
  | nil =>
    intro skip l₂ hlen _
    have hsk : skip = [] := List.eq_nil_of_length_eq_zero (Nat.le_zero.mp hlen)
    subst hsk
    simp [replaceAux]
  | cons c r ih =>
    intro skip l₂ hlen hnb
    cases skip with
    | cons s sk =>
      rw [List.cons_append, replaceAux_skip, replaceAux_skip]
      exact ih sk l₂ (Nat.le_of_succ_le_succ hlen) (noBoundaryMatch_tail hnb)
    | nil =>
      have hb := @match_eq_at_boundary pat c r l₂ (noBoundaryMatch_head hnb)
      rw [List.cons_append, replaceAux_cons, replaceAux_cons, hb]
      by_cases hm : (!pat.isEmpty && pat.isPrefixOf (c :: r)) = true
      · rw [if_pos hm, if_pos hm]
        have hfit : (pat.drop 1).length ≤ r.length := by
          have h2 := length_le_of_isPrefixOf ((Bool.and_eq_true _ _).mp hm).2
          simp only [List.length_cons] at h2
          simp only [List.length_drop]
          omega
        rw [ih (pat.drop 1) l₂ hfit (noBoundaryMatch_tail hnb), List.append_assoc]
      · rw [if_neg hm, if_neg hm]
        rw [ih [] l₂ (Nat.zero_le _) (noBoundaryMatch_tail hnb), List.cons_append]

/-- A scan over a pattern-free list is the identity. -/
theorem replaceAux_of_no_occur (pat repl : List Char) :
    ∀ (l : List Char), countOccurAux pat [] l = 0 →
      replaceAux pat repl [] l = l := by
  intro l
  induction l with
  | nil => intro _; rfl
  | cons c r ih =>
    intro h
    rw [countOccurAux_cons] at h
    rw [replaceAux_cons]
    by_cases hm : (!pat.isEmpty && pat.isPrefixOf (c :: r)) = true
    · rw [if_pos hm] at h; omega
    · rw [if_neg hm] at h
      rw [if_neg hm, ih h]

/-- Join two split results across an append boundary: the last chunk of
the first result fuses with the first chunk of the second. -/
def glue : List (List Char) → List (List Char) → List (List Char)
  | [], ys => ys
  | [x], ys =>
    match ys with
    | [] => [x]
    | y :: ys' => (x ++ y) :: ys'
  | x :: xs, ys => x :: glue xs ys

theorem glue_cons_of_ne_nil (x : List Char) {xs : List (List Char)}
    (h : xs ≠ []) (ys : List (List Char)) :
    glue (x :: xs) ys = x :: glue xs ys := by
  cases xs with
  | nil => exact absurd rfl h
  | cons a t => rfl

theorem splitOnAux_ne_nil (sep : List Char) :
    ∀ (skip l : List Char), splitOnAux sep skip l ≠ [] := by
  intro skip l
  induction l generalizing skip with
  | nil => cases skip <;> simp [splitOnAux]
  | cons c r ih =>
    cases skip with
    | cons s sk => rw [splitOnAux_skip]; exact ih sk
    | nil =>
      rw [splitOnAux_cons]
      by_cases hm : (!sep.isEmpty && sep.isPrefixOf (c :: r)) = true
      · rw [if_pos hm]; simp
      · rw [if_neg hm]
        cases hs : splitOnAux sep [] r with
        | nil => exact absurd hs (ih [])
        | cons p ps => simp [consHead]

theorem consHead_ne_nil (c : Char) (xs : List (List Char)) : consHead c xs ≠ [] := by
  cases xs <;> simp [consHead]

theorem glue_consHead (c : Char) {xs : List (List Char)} (h : xs ≠ [])
    (ys : List (List Char)) :
    glue (consHead c xs) ys = consHead c (glue xs ys) := by
  cases xs with
  | nil => exact absurd rfl h
  | cons p ps =>
    cases ps with
    | nil =>
      cases ys with
      | nil => rfl
      | cons y ys' => rfl
    | cons q qs =>
      rw [show consHead c ((p :: q :: qs)) = (c :: p) :: q :: qs from rfl]
      rw [glue_cons_of_ne_nil (c :: p) (by simp) ys,
        glue_cons_of_ne_nil p (by simp) ys]
      rfl

theorem glue_nil_head {ys : List (List Char)} (h : ys ≠ []) :
    glue [[]] ys = ys := by
  cases ys with
  | nil => exact absurd rfl h
  | cons y ys' => simp [glue]

/-- `str.split` distributes over an append at a clean boundary. -/
theorem splitOnAux_append (sep : List Char) :
    ∀ (l₁ skip l₂ : List Char), skip.length ≤ l₁.length →
      noBoundaryMatch sep l₁ = true →
      splitOnAux sep skip (l₁ ++ l₂) =
        glue (splitOnAux sep skip l₁) (splitOnAux sep [] l₂) := by
  intro l₁
  induction l₁ with
  | nil =>
    intro skip l₂ hlen _
    have hsk : skip = [] := List.eq_nil_of_length_eq_zero (Nat.le_zero.mp hlen)
    subst hsk
    rw [List.nil_append, show splitOnAux sep [] [] = [[]] from rfl,
      glue_nil_head (splitOnAux_ne_nil sep [] l₂)]
  | cons c r ih =>
    intro skip l₂ hlen hnb
    cases skip with
    | cons s sk =>
      rw [List.cons_append, splitOnAux_skip, splitOnAux_skip]
      exact ih sk l₂ (Nat.le_of_succ_le_succ hlen) (noBoundaryMatch_tail hnb)
    | nil =>
      have hb := @match_eq_at_boundary sep c r l₂ (noBoundaryMatch_head hnb)
      rw [List.cons_append, splitOnAux_cons, splitOnAux_cons, hb]
      by_cases hm : (!sep.isEmpty && sep.isPrefixOf (c :: r)) = true
      · rw [if_pos hm, if_pos hm]
        have hfit : (sep.drop 1).length ≤ r.length := by
          have h2 := length_le_of_isPrefixOf ((Bool.and_eq_true _ _).mp hm).2
          simp only [List.length_cons] at h2
          simp only [List.length_drop]
          omega
        rw [ih (sep.drop 1) l₂ hfit (noBoundaryMatch_tail hnb),
          glue_cons_of_ne_nil [] (splitOnAux_ne_nil sep (sep.drop 1) r) _]
      · rw [if_neg hm, if_neg hm]
        rw [ih [] l₂ (Nat.zero_le _) (noBoundaryMatch_tail hnb),
          glue_consHead c (splitOnAux_ne_nil sep [] r) _]

/-- Splitting a pattern-free list yields a single chunk. -/
theorem splitOnAux_of_no_occur (sep : List Char) :
    ∀ (l : List Char), countOccurAux sep [] l = 0 →
      splitOnAux sep [] l = [l] := by
  intro l
  induction l with
  | nil => intro _; rfl
  | cons c r ih =>
    intro h
    rw [countOccurAux_cons] at h
    rw [splitOnAux_cons]
    by_cases hm : (!sep.isEmpty && sep.isPrefixOf (c :: r)) = true
    · rw [if_pos hm] at h; omega
    · rw [if_neg hm] at h
      rw [if_neg hm, ih h]
      rfl

/-- The number of chunks is the number of separator occurrences plus one. -/
theorem splitOnAux_length (sep : List Char) :
    ∀ (l skip : List Char),
      (splitOnAux sep skip l).length = countOccurAux sep skip l + 1 := by
  intro l
  induction l with
  | nil => intro skip; cases skip <;> rfl
  | cons c r ih =>
    intro skip
    cases skip with
    | cons s sk =>
      rw [splitOnAux_skip, show countOccurAux sep (s :: sk) (c :: r) =
        countOccurAux sep sk r from rfl]
      exact ih sk
    | nil =>
      rw [splitOnAux_cons, countOccurAux_cons]
      by_cases hm : (!sep.isEmpty && sep.isPrefixOf (c :: r)) = true
      · rw [if_pos hm, if_pos hm]
        simp only [List.length_cons]
        rw [ih (sep.drop 1)]
        omega
      · rw [if_neg hm, if_neg hm]
        have h1 := ih ([] : List Char)
        cases hs : splitOnAux sep [] r with
        | nil => exact absurd hs (splitOnAux_ne_nil sep [] r)
        | cons p ps =>
          rw [hs] at h1
          simp only [consHead, List.length_cons] at h1 ⊢
          omega

/-- Single-character split of a separator-free list. -/
theorem splitOnAux_single_no_mem (c : Char) :
    ∀ (l : List Char), c ∉ l → splitOnAux [c] [] l = [l] := by
  intro l hmem
  apply splitOnAux_of_no_occur
  induction l with
  | nil => rfl
  | cons a r ih =>
    rw [countOccurAux_cons]
    rw [if_neg]
    · exact ih (fun hc => hmem (List.mem_cons_of_mem _ hc))
    · intro hm
      have h2 := ((Bool.and_eq_true _ _).mp hm).2
      rw [List.isPrefixOf_cons₂] at h2
      have h3 := ((Bool.and_eq_true _ _).mp h2).1
      exact hmem (by simp [List.mem_cons, beq_iff_eq.mp h3])

/-! ### Lemmas about normpath -/

theorem glue_single (x : List Char) :
    ∀ (xs : List (List Char)) (h : xs ≠ []),
      glue xs [x] = xs.dropLast ++ [xs.getLast h ++ x] := by
  intro xs
  induction xs with
  | nil => intro h; exact absurd rfl h
  | cons a t ih =>
    intro h
    cases t with
    | nil => rfl
    | cons b t' =>
      rw [glue_cons_of_ne_nil a (by simp) [x], ih (by simp)]
      simp [List.getLast]

theorem normComps_nil (b : Bool) (acc : List (List Char)) :
    normComps b acc [] = acc.reverse := rfl

theorem normComps_cons_eq (b : Bool) (acc rest : List (List Char)) (comp : List Char) :
    normComps b acc (comp :: rest) =
      if comp = [] || comp = ['.'] then normComps b acc rest
      else if comp = ['.', '.'] then
        match acc with
        | [] => if b then normComps b [] rest else normComps b [['.', '.']] rest
        | top :: tl =>
          if top = ['.', '.'] then normComps b (comp :: top :: tl) rest
          else normComps b tl rest
      else normComps b (comp :: acc) rest := rfl

theorem normComps_dotdot_step (b : Bool) (acc rest : List (List Char)) :
    normComps b acc (['.', '.'] :: rest) =
      match acc with
      | [] => if b then normComps b [] rest else normComps b [['.', '.']] rest
      | top :: tl =>
        if top = ['.', '.'] then normComps b (['.', '.'] :: top :: tl) rest
        else normComps b tl rest := by
  rw [normComps_cons_eq]
  rw [if_neg (by simp), if_pos rfl]

theorem normComps_normal_step (b : Bool) (acc rest : List (List Char))
    {comp : List Char} (h1 : comp ≠ []) (h2 : comp ≠ ['.']) (h3 : comp ≠ ['.', '.']) :
    normComps b acc (comp :: rest) = normComps b (comp :: acc) rest := by
  simp only [normComps]
  rw [if_neg (by simp [h1, h2]), if_neg h3]

theorem normComps_skip_step (b : Bool) (acc rest : List (List Char))
    {comp : List Char} (h : comp = [] ∨ comp = ['.']) :
    normComps b acc (comp :: rest) = normComps b acc rest := by
  simp only [normComps]
  rcases h with h | h <;> rw [if_pos (by simp [h])]

/-- Appending one normal (non-special) component at the end commutes with
normalization. -/
theorem normComps_append_normal (b : Bool) {comp : List Char}
    (h1 : comp ≠ []) (h2 : comp ≠ ['.']) (h3 : comp ≠ ['.', '.']) :
    ∀ (cs acc : List (List Char)),
      normComps b acc (cs ++ [comp]) = normComps b acc cs ++ [comp] := by
  intro cs
  induction cs with
  | nil =>
    intro acc
    rw [List.nil_append, normComps_normal_step b acc [] h1 h2 h3,
      normComps_nil, normComps_nil]
    simp
  | cons p ps ih =>
    intro acc
    rw [List.cons_append]
    by_cases hp1 : p = [] ∨ p = ['.']
    · rw [normComps_skip_step b acc _ hp1, normComps_skip_step b acc _ hp1, ih acc]
    · push_neg at hp1
      by_cases hp2 : p = ['.', '.']
      · subst hp2
        rw [normComps_dotdot_step b acc (ps ++ [comp]), normComps_dotdot_step b acc ps]
        cases acc with
        | nil =>
          dsimp only
          cases b with
          | false =>
            rw [if_neg (by simp), if_neg (by simp)]
            exact ih _
          | true =>
            rw [if_pos rfl, if_pos rfl]
            exact ih _
        | cons top tl =>
          dsimp only
          by_cases ht : top = ['.', '.']
          · rw [if_pos ht, if_pos ht]
            exact ih _
          · rw [if_neg ht, if_neg ht]
            exact ih _
      · rw [normComps_normal_step b acc _ hp1.1 hp1.2 hp2,
          normComps_normal_step b acc _ hp1.1 hp1.2 hp2, ih _]

/-- Normalization of a list of normal components is the identity. -/
theorem normComps_all_normal (b : Bool) :
    ∀ (cs : List (List Char)),
      (∀ comp ∈ cs, comp ≠ [] ∧ comp ≠ ['.'] ∧ comp ≠ ['.', '.']) →
      ∀ acc, normComps b acc cs = acc.reverse ++ cs := by
  intro cs
  induction cs with
  | nil => intro _ acc; simp [normComps_nil]
  | cons p ps ih =>
    intro h acc
    obtain ⟨h1, h2, h3⟩ := h p (List.mem_cons_self _ _)
    rw [normComps_normal_step b acc ps h1 h2 h3,
      ih (fun c hc => h c (List.mem_cons_of_mem _ hc)) (p :: acc)]
    simp

theorem joinComps_nil (sep : List Char) : joinComps sep [] = [] := rfl

theorem joinComps_single (sep x : List Char) : joinComps sep [x] = x := rfl

theorem joinComps_cons2 (sep x y : List Char) (t : List (List Char)) :
    joinComps sep (x :: y :: t) = x ++ sep ++ joinComps sep (y :: t) := rfl

/-- Join with a final extra component. -/
theorem joinComps_append_single (sep x : List Char) :
    ∀ (xs : List (List Char)), xs ≠ [] →
      joinComps sep (xs ++ [x]) = joinComps sep xs ++ sep ++ x := by
  intro xs
  induction xs with
  | nil => intro h; exact absurd rfl h
  | cons a t ih =>
    intro _
    cases t with
    | nil => rw [joinComps_single]; rfl
    | cons b t' =>
      have ih' := ih (by simp)
      rw [List.cons_append] at ih'
      rw [List.cons_append, List.cons_append, joinComps_cons2, joinComps_cons2, ih']
      simp [List.append_assoc]

theorem headIs_append_of_ne_nil {A : List Char} (h : A ≠ []) (B : List Char) (c : Char) :
    headIs (A ++ B) c = headIs A c := by
  cases A with
  | nil => exact absurd rfl h
  | cons a t => rfl

/-- The `posixpath.normpath` of a path whose final component carries a
fixed `.ext`-style suffix factors into an extension-independent stem
followed by that suffix.  `eL` must be nonempty and contain neither `/`
nor `.` (true of `jpg`, `png`, `mp4`). -/
theorem normpath_factor (R : List Char) :
    ∃ H : List Char, ∀ eL : List Char, eL ≠ [] → '/' ∉ eL → '.' ∉ eL →
      normpathL (R ++ '.' :: eL) = H ++ '.' :: eL := by
  have hcomps := splitOnAux_ne_nil ['/'] [] R
  set comps := splitOnAux ['/'] [] R with hc
  have hinit : ∀ eL : List Char, headIs (R ++ '.' :: eL) '/' = headIs (R ++ ['.']) '/' := by
    intro eL
    cases R with
    | nil => rfl
    | cons a t => rfl
  have hdbl : ∀ eL : List Char, dblSlash (R ++ '.' :: eL) = dblSlash (R ++ ['.']) := by
    intro eL
    cases R with
    | nil => cases eL <;> simp [dblSlash, headIs]
    | cons a t =>
      cases t with
      | nil => simp [dblSlash]
      | cons b t' =>
        simp only [List.cons_append, dblSlash]
        rw [List.append_cons t' '.' eL,
          headIs_append_of_ne_nil (by simp : t' ++ ['.'] ≠ []) eL '/']
  set initSl := headIs (R ++ ['.']) '/' with hisl
  set ds := dblSlash (R ++ ['.']) with hds
  set N := normComps initSl [] comps.dropLast with hN
  set lastc := comps.getLast hcomps with hlast
  set pre : List Char := if initSl then (if ds then ['/', '/'] else ['/']) else [] with hpre
  refine ⟨pre ++ (if hn : N = [] then lastc
    else joinComps ['/'] N ++ ['/'] ++ lastc), ?_⟩
  intro eL h1 h2 h3
  have hne : R ++ '.' :: eL ≠ [] := by simp
  have hsplit : splitOnAux ['/'] [] (R ++ '.' :: eL) =
      comps.dropLast ++ [lastc ++ '.' :: eL] := by
    rw [splitOnAux_append ['/'] R [] ('.' :: eL) (Nat.zero_le _)
        (noBoundaryMatch_single '/' R),
      splitOnAux_single_no_mem '/' ('.' :: eL) (by simp [h2]),
      ← hc, glue_single ('.' :: eL) comps hcomps]
  have hlastcomp : lastc ++ '.' :: eL ≠ [] ∧ lastc ++ '.' :: eL ≠ ['.'] ∧
      lastc ++ '.' :: eL ≠ ['.', '.'] := by
    refine ⟨by simp, ?_, ?_⟩
    · intro hcontra
      have hlen := congrArg List.length hcontra
      simp only [List.length_append, List.length_cons, List.length_nil] at hlen
      have he0 : eL.length = 0 := by omega
      exact h1 (List.eq_nil_of_length_eq_zero he0)
    · intro hcontra
      cases hl : lastc with
      | nil =>
        rw [hl, List.nil_append] at hcontra
        have heL : eL = ['.'] := by injection hcontra
        exact h3 (by rw [heL]; exact List.mem_singleton_self '.')
      | cons a t =>
        rw [hl] at hcontra
        have hlen := congrArg List.length hcontra
        simp only [List.cons_append, List.length_append, List.length_cons,
          List.length_nil] at hlen
        have he0 : eL.length = 0 := by omega
        exact h1 (List.eq_nil_of_length_eq_zero he0)
  have hnorm : normComps initSl [] (comps.dropLast ++ [lastc ++ '.' :: eL]) =
      N ++ [lastc ++ '.' :: eL] := by
    rw [normComps_append_normal initSl hlastcomp.1 hlastcomp.2.1 hlastcomp.2.2
      comps.dropLast [], ← hN]
  rw [normpathL, if_neg hne]
  simp only
  rw [hinit eL, hdbl eL, hsplit, hnorm]
  by_cases hn : N = []
  · rw [dif_pos hn, hn, List.nil_append, joinComps_single, ← List.append_assoc]
    rw [if_neg (by simp)]
  · rw [dif_neg hn]
    rw [joinComps_append_single ['/'] (lastc ++ '.' :: eL) N hn]
    rw [if_neg (by simp)]
    simp [List.append_assoc]

/-! ### Factorization of the candidate filename through the extension -/

/-- A join whose second component is relative appends it after the first,
with an extension-independent connective. -/
theorem pjoin2_data_of_not_abs {b : String} (hb : startsWithChar b '/' = false)
    (p : String) :
    (pjoin2 p b).data =
      (if (p = "" || endsWithChar p '/') = true then p.data else p.data ++ ['/']) ++
        b.data := by
  rw [pjoin2, if_neg (by simp [hb])]
  by_cases hc : (p = "" || endsWithChar p '/') = true
  · rw [if_pos hc, if_pos hc, strData_append]
  · rw [if_neg hc, if_neg hc]
    show (p ++ "/" ++ b).data = (p.data ++ ['/']) ++ b.data
    rw [strData_append, strData_append]

/-- `posixpath.abspath` of a path ending in a fixed `.ext` suffix also
factors into an extension-independent stem followed by that suffix. -/
theorem abspath_factor (cwd : String) (Q : List Char) (hQ : Q ≠ []) :
    ∃ H : List Char, ∀ e : String, e.data ≠ [] → '/' ∉ e.data → '.' ∉ e.data →
      (abspath cwd ⟨Q ++ '.' :: e.data⟩).data = H ++ '.' :: e.data := by
  by_cases hb : headIs Q '/' = true
  · obtain ⟨H, hH⟩ := normpath_factor Q
    refine ⟨H, fun e h1 h2 h3 => ?_⟩
    rw [abspath, if_pos ?_]
    · show normpathL (Q ++ '.' :: e.data) = H ++ '.' :: e.data
      exact hH e.data h1 h2 h3
    · show headIs (Q ++ '.' :: e.data) '/' = true
      rw [headIs_append_of_ne_nil hQ _ '/']
      exact hb
  · obtain ⟨H, hH⟩ := normpath_factor
      ((if (cwd = "" || endsWithChar cwd '/') = true then cwd.data
        else cwd.data ++ ['/']) ++ Q)
    refine ⟨H, fun e h1 h2 h3 => ?_⟩
    rw [abspath, if_neg ?_]
    · show normpathL (pjoin2 cwd ⟨Q ++ '.' :: e.data⟩).data = H ++ '.' :: e.data
      rw [pjoin2_data_of_not_abs ?_ cwd]
      · rw [← List.append_assoc]
        exact hH e.data h1 h2 h3
      · show headIs (Q ++ '.' :: e.data) '/' = false
        rw [headIs_append_of_ne_nil hQ _ '/']
        exact Bool.not_eq_true _ ▸ hb
    · show ¬(headIs (Q ++ '.' :: e.data) '/' = true)
      rw [headIs_append_of_ne_nil hQ _ '/']
      exact hb

/-- The full candidate path of `save_image` factors as a stem depending
only on `(ctx, key)` followed by `.ext`: the dedup-checked triple and the
written file always live at `stem ++ "." ++ ext` for the same stem. -/
theorem candidate_factor (ctx : Ctx) (key : String) :
    ∃ H : List Char, ∀ e : String, e.data ≠ [] → '/' ∉ e.data → '.' ∉ e.data →
      (candidate ctx key e).data = H ++ '.' :: e.data := by
  have htA : ("tadpole-" ++ ctx.monthText ++ "-" ++ ctx.yearText ++ "-" ++ key).data =
      't' :: ("adpole-" ++ ctx.monthText ++ "-" ++ ctx.yearText ++ "-" ++ key).data := rfl
  have hAne : ("tadpole-" ++ ctx.monthText ++ "-" ++ ctx.yearText ++ "-" ++ key).data ≠ [] := by
    rw [htA]; simp
  have hfname_data : ∀ e : String,
      ("tadpole-" ++ ctx.monthText ++ "-" ++ ctx.yearText ++ "-" ++ key ++ "." ++ e).data =
        ("tadpole-" ++ ctx.monthText ++ "-" ++ ctx.yearText ++ "-" ++ key).data ++
          '.' :: e.data := by
    intro e
    rw [strData_append, strData_append, List.append_assoc]
    rfl
  have hswc : ∀ e : String,
      startsWithChar ("tadpole-" ++ ctx.monthText ++ "-" ++ ctx.yearText ++ "-" ++ key ++
        "." ++ e) '/' = false := by
    intro e
    show headIs ("tadpole-" ++ ctx.monthText ++ "-" ++ ctx.yearText ++ "-" ++ key ++
      "." ++ e).data '/' = false
    rw [hfname_data e, headIs_append_of_ne_nil hAne _ '/', htA]
    rfl
  obtain ⟨H, hH⟩ := abspath_factor ctx.cwd
    ((if (pjoin2 (pjoin2 (pjoin2 ctx.DownloadFolder "images") ctx.yearText) ctx.monthText
        = "" ||
      endsWithChar (pjoin2 (pjoin2 (pjoin2 ctx.DownloadFolder "images") ctx.yearText)
        ctx.monthText) '/') = true then
      (pjoin2 (pjoin2 (pjoin2 ctx.DownloadFolder "images") ctx.yearText) ctx.monthText).data
     else
      (pjoin2 (pjoin2 (pjoin2 ctx.DownloadFolder "images") ctx.yearText)
        ctx.monthText).data ++ ['/']) ++
      ("tadpole-" ++ ctx.monthText ++ "-" ++ ctx.yearText ++ "-" ++ key).data)
    (by
      intro hcontra
      exact hAne (List.append_eq_nil.mp hcontra).2)
  refine ⟨H, fun e h1 h2 h3 => ?_⟩
  have hXeq : pjoin2
      (pjoin2 (pjoin2 (pjoin2 ctx.DownloadFolder "images") ctx.yearText) ctx.monthText)
      ("tadpole-" ++ ctx.monthText ++ "-" ++ ctx.yearText ++ "-" ++ key ++ "." ++ e) =
      (⟨((if (pjoin2 (pjoin2 (pjoin2 ctx.DownloadFolder "images") ctx.yearText) ctx.monthText
          = "" ||
        endsWithChar (pjoin2 (pjoin2 (pjoin2 ctx.DownloadFolder "images") ctx.yearText)
          ctx.monthText) '/') = true then
        (pjoin2 (pjoin2 (pjoin2 ctx.DownloadFolder "images") ctx.yearText) ctx.monthText).data
       else
        (pjoin2 (pjoin2 (pjoin2 ctx.DownloadFolder "images") ctx.yearText)
          ctx.monthText).data ++ ['/']) ++
        ("tadpole-" ++ ctx.monthText ++ "-" ++ ctx.yearText ++ "-" ++ key).data) ++
        '.' :: e.data⟩ : String) := by
    apply String.ext
    rw [pjoin2_data_of_not_abs (hswc e), hfname_data e, List.append_assoc]
  show (abspath ctx.cwd (pjoin2
      (pjoin2 (pjoin2 (pjoin2 ctx.DownloadFolder "images") ctx.yearText) ctx.monthText)
      ("tadpole-" ++ ctx.monthText ++ "-" ++ ctx.yearText ++ "-" ++ key ++ "." ++ e))).data =
    H ++ '.' :: e.data
  rw [hXeq]
  exact hH e h1 h2 h3

/-- The three media extensions of `save_image`. -/
def mediaExt (e : String) : Prop := e = "jpg" ∨ e = "png" ∨ e = "mp4"

theorem mediaExt_conditions {e : String} (h : mediaExt e) :
    e.data ≠ [] ∧ '/' ∉ e.data ∧ '.' ∉ e.data := by
  rcases h with h | h | h <;> subst h <;> exact ⟨by decide, by decide, by decide⟩

/-- If two candidate paths built with media extensions coincide, their
extensions coincide and all their sibling candidates coincide as well: the
three paths checked by the dedup guard always cover the whole triple the
written file belongs to. -/
theorem candidate_cancel {ctx₁ : Ctx} {k₁ : String} {ctx₂ : Ctx} {k₂ : String}
    {e₁ e₂ : String} (he₁ : mediaExt e₁) (he₂ : mediaExt e₂)
    (h : candidate ctx₁ k₁ e₁ = candidate ctx₂ k₂ e₂) :
    e₁ = e₂ ∧ ∀ e : String, mediaExt e → candidate ctx₁ k₁ e = candidate ctx₂ k₂ e := by
  obtain ⟨H₁, hH₁⟩ := candidate_factor ctx₁ k₁
  obtain ⟨H₂, hH₂⟩ := candidate_factor ctx₂ k₂
  obtain ⟨c₁a, c₁b, c₁c⟩ := mediaExt_conditions he₁
  obtain ⟨c₂a, c₂b, c₂c⟩ := mediaExt_conditions he₂
  have hd : H₁ ++ '.' :: e₁.data = H₂ ++ '.' :: e₂.data := by
    rw [← hH₁ e₁ c₁a c₁b c₁c, ← hH₂ e₂ c₂a c₂b c₂c, h]
  have hlen : ('.' :: e₁.data).length = ('.' :: e₂.data).length := by
    rcases he₁ with h1 | h1 | h1 <;> rcases he₂ with h2 | h2 | h2 <;>
      subst h1 <;> subst h2 <;> rfl
  obtain ⟨hstem, hsuffix⟩ := List.append_inj' hd hlen
  have hedata : e₁.data = e₂.data := by injection hsuffix
  refine ⟨String.ext hedata, fun e he => ?_⟩
  obtain ⟨ca, cb, cc⟩ := mediaExt_conditions he
  apply String.ext
  rw [hH₁ e ca cb cc, hH₂ e ca cb cc, hstem]

theorem candidate_ne {ctx : Ctx} {k : String} {e₁ e₂ : String}
    (he₁ : mediaExt e₁) (he₂ : mediaExt e₂) (hne : e₁ ≠ e₂) :
    candidate ctx k e₁ ≠ candidate ctx k e₂ :=
  fun h => hne (candidate_cancel he₁ he₂ h).1

/-! ### The dedup invariant (claim C5) -/

/-- How many of a triple's three candidate artifacts exist among `files`. -/
def numPresent (ctx : Ctx) (key : String) (files : List String) : Nat :=
  ((["jpg", "png", "mp4"] : List String).filter
    (fun e => files.contains (candidate ctx key e))).length

theorem numPresent_cons_of_ne (tctx : Ctx) (tkey : String) (p : String)
    (files : List String)
    (h : ∀ e : String, mediaExt e → candidate tctx tkey e ≠ p) :
    numPresent tctx tkey (p :: files) = numPresent tctx tkey files := by
  unfold numPresent
  congr 1
  apply List.filter_congr
  intro e he
  have hme : mediaExt e := by
    simp only [List.mem_cons, List.not_mem_nil, or_false] at he
    exact he
  have hne : (candidate tctx tkey e == p) = false :=
    beq_eq_false_iff_ne.mpr (h e hme)
  rw [List.contains_cons, hne, Bool.false_or]

theorem mediaExt_jpg : mediaExt "jpg" := Or.inl rfl
theorem mediaExt_png : mediaExt "png" := Or.inr (Or.inl rfl)
theorem mediaExt_mp4 : mediaExt "mp4" := Or.inr (Or.inr rfl)

theorem numPresent_formula (ctx : Ctx) (key : String) (files : List String) :
    numPresent ctx key files =
      (if files.contains (candidate ctx key "jpg") then 1 else 0) +
      ((if files.contains (candidate ctx key "png") then 1 else 0) +
       (if files.contains (candidate ctx key "mp4") then 1 else 0)) := by
  unfold numPresent
  rw [List.filter_cons, List.filter_cons, List.filter_cons, List.filter_nil]
  split_ifs <;> simp

theorem numPresent_cons_self (tctx : Ctx) (tkey : String) {e : String} (he : mediaExt e)
    (files : List String)
    (hg : ∀ e' : String, mediaExt e' → files.contains (candidate tctx tkey e') = false) :
    numPresent tctx tkey (candidate tctx tkey e :: files) = 1 := by
  have hgj := hg "jpg" mediaExt_jpg
  have hgp := hg "png" mediaExt_png
  have hgm := hg "mp4" mediaExt_mp4
  rw [numPresent_formula]
  rcases he with h | h | h <;> subst h
  · rw [List.contains_cons, List.contains_cons, List.contains_cons, hgj, hgp, hgm,
      beq_self_eq_true,
      beq_eq_false_iff_ne.mpr (candidate_ne mediaExt_png mediaExt_jpg (by decide)),
      beq_eq_false_iff_ne.mpr (candidate_ne mediaExt_mp4 mediaExt_jpg (by decide))]
    rfl
  · rw [List.contains_cons, List.contains_cons, List.contains_cons, hgj, hgp, hgm,
      beq_self_eq_true,
      beq_eq_false_iff_ne.mpr (candidate_ne mediaExt_jpg mediaExt_png (by decide)),
      beq_eq_false_iff_ne.mpr (candidate_ne mediaExt_mp4 mediaExt_png (by decide))]
    rfl
  · rw [List.contains_cons, List.contains_cons, List.contains_cons, hgj, hgp, hgm,
      beq_self_eq_true,
      beq_eq_false_iff_ne.mpr (candidate_ne mediaExt_jpg mediaExt_mp4 (by decide)),
      beq_eq_false_iff_ne.mpr (candidate_ne mediaExt_png mediaExt_mp4 (by decide))]
    rfl

theorem numPresent_cons_of_guarded (tctx : Ctx) (tkey : String)
    (ctx : Ctx) (k : String) {e : String} (he : mediaExt e)
    (files : List String)
    (hguard : ∀ e' : String, mediaExt e' →
      files.contains (candidate ctx k e') = false)
    (hle : numPresent tctx tkey files ≤ 1) :
    numPresent tctx tkey (candidate ctx k e :: files) ≤ 1 := by
  by_cases hmem : ∃ e₀ : String, mediaExt e₀ ∧ candidate ctx k e = candidate tctx tkey e₀
  · obtain ⟨e₀, he₀, heq⟩ := hmem
    have hsame := (candidate_cancel he he₀ heq).2
    have hg : ∀ e' : String, mediaExt e' →
        files.contains (candidate tctx tkey e') = false := by
      intro e' he'
      rw [← hsame e' he']
      exact hguard e' he'
    rw [hsame e he, numPresent_cons_self tctx tkey he files hg]
  · push_neg at hmem
    rw [numPresent_cons_of_ne tctx tkey _ files
      (fun e' he' hcontra => hmem e' he' hcontra.symm)]
    exact hle

theorem prepDir_files (fs : FS) (dr : String) : (prepDir fs dr).1.files = fs.files := by
  unfold prepDir
  split <;> rfl

theorem writeStream_numPresent (tctx : Ctx) (tkey : String) (ctx : Ctx) (k : String)
    {e : String} (he : mediaExt e) (fs : FS) (resp : HttpResponse) (evs : List Event)
    (hj : fs.files.contains (candidate ctx k "jpg") = false)
    (hv : fs.files.contains (candidate ctx k "mp4") = false)
    (hp : fs.files.contains (candidate ctx k "png") = false)
    (hle : numPresent tctx tkey fs.files ≤ 1) :
    numPresent tctx tkey (writeStream (candidate ctx k e) resp fs evs).2.1.files ≤ 1 := by
  rw [writeStream]
  cases resp.chunks with
  | nil => exact hle
  | cons c ct =>
    dsimp only
    refine numPresent_cons_of_guarded tctx tkey ctx k he fs.files ?_ hle
    intro e' he'
    rcases he' with h | h | h <;> subst h <;> assumption

theorem save_image_numPresent (tctx : Ctx) (tkey : String)
    (ctx : Ctx) (url : String) (rs : List HttpResponse) (fs : FS)
    (hle : numPresent tctx tkey fs.files ≤ 1) :
    numPresent tctx tkey (save_image ctx url rs fs).2.1.files ≤ 1 := by
  rw [save_image]
  rcases hs : strSplitOn url "key=" with _ | ⟨a, _ | ⟨k, _ | ⟨x, t⟩⟩⟩
  · exact hle
  · exact hle
  · dsimp only
    by_cases hj : fs.isfile (candidate ctx k "jpg") = true
    · rw [if_pos hj]; exact hle
    · rw [if_neg hj]
      by_cases hv : fs.isfile (candidate ctx k "mp4") = true
      · rw [if_pos hv]; exact hle
      · rw [if_neg hv]
        by_cases hp : fs.isfile (candidate ctx k "png") = true
        · rw [if_pos hp]; exact hle
        · rw [if_neg hp]
          rw [Bool.not_eq_true] at hj hv hp
          have hfiles1 := prepDir_files fs (dirname (candidate ctx k "jpg"))
          have hle1 : numPresent tctx tkey
              (prepDir fs (dirname (candidate ctx k "jpg"))).1.files ≤ 1 := by
            rw [hfiles1]; exact hle
          have hj1 : (prepDir fs (dirname (candidate ctx k "jpg"))).1.files.contains
              (candidate ctx k "jpg") = false := by rw [hfiles1]; exact hj
          have hv1 : (prepDir fs (dirname (candidate ctx k "jpg"))).1.files.contains
              (candidate ctx k "mp4") = false := by rw [hfiles1]; exact hv
          have hp1 : (prepDir fs (dirname (candidate ctx k "jpg"))).1.files.contains
              (candidate ctx k "png") = false := by rw [hfiles1]; exact hp
          cases rs with
          | nil => exact hle1
          | cons resp rtail =>
            dsimp only
            by_cases hst : resp.status = 200
            · rw [if_pos hst]
              by_cases hct1 : resp.contentType = "image/jpeg"
              · rw [if_pos hct1]
                exact writeStream_numPresent tctx tkey ctx k mediaExt_jpg _ resp _
                  hj1 hv1 hp1 hle1
              · rw [if_neg hct1]
                by_cases hct2 : resp.contentType = "image/png"
                · rw [if_pos hct2]
                  exact writeStream_numPresent tctx tkey ctx k mediaExt_png _ resp _
                    hj1 hv1 hp1 hle1
                · rw [if_neg hct2]
                  by_cases hct3 : resp.contentType = "video/mp4"
                  · rw [if_pos hct3]
                    exact writeStream_numPresent tctx tkey ctx k mediaExt_mp4 _ resp _
                      hj1 hv1 hp1 hle1
                  · rw [if_neg hct3]
                    exact hle1
            · rw [if_neg hst]
              exact hle1
  · exact hle

theorem download_images_loop_numPresent (tctx : Ctx) (tkey : String) :
    ∀ (items : List Item) (fs : FS),
      numPresent tctx tkey fs.files ≤ 1 →
      numPresent tctx tkey (download_images_loop items fs).2.files ≤ 1 := by
  intro items
  induction items with
  | nil => intro fs h; exact h
  | cons it rest ih =>
    intro fs h
    rw [download_images_loop]
    have h' := save_image_numPresent tctx tkey it.ctx it.url it.responses fs h
    rcases hsv : save_image it.ctx it.url it.responses fs with ⟨r, fs', evs⟩
    rw [hsv] at h'
    cases r <;> dsimp only <;> first
      | exact h'
      | exact ih fs' h'

theorem sync_runs_numPresent (tctx : Ctx) (tkey : String) :
    ∀ (runs : List (List Item)) (fs : FS),
      numPresent tctx tkey fs.files ≤ 1 →
      numPresent tctx tkey (sync_runs runs fs).files ≤ 1 := by
  intro runs
  induction runs with
  | nil => intro fs h; exact h
  | cons items rest ih =>
    intro fs h
    rw [sync_runs, List.foldl_cons]
    exact ih (download_images_loop items fs).2
      (download_images_loop_numPresent tctx tkey items fs h)

/-! ### Explicit layout of candidate paths over plain components -/

/-- A path component that survives `normpath` unchanged: nonempty, free of
`/`, and not one of the special components `.` and `..`. -/
def plainComp (s : String) : Prop :=
  s.data ≠ [] ∧ '/' ∉ s.data ∧ s.data ≠ ['.'] ∧ s.data ≠ ['.', '.']

instance (s : String) : Decidable (plainComp s) := by
  unfold plainComp
  infer_instance

theorem String_ne_empty_of_data {s : String} (h : s.data ≠ []) : s ≠ "" :=
  fun hc => h (by rw [hc])

theorem startsWithChar_false_of_plain {s : String} (h1 : s.data ≠ [])
    (h2 : '/' ∉ s.data) : startsWithChar s '/' = false := by
  rw [startsWithChar]
  cases hd : s.data with
  | nil => rfl
  | cons c l =>
    show (c == '/') = false
    refine beq_eq_false_iff_ne.mpr fun hc => ?_
    rw [hd] at h2
    exact h2 (hc ▸ List.mem_cons_self c l)

theorem endsWithChar_false_of_data_append {s : String} {A l : List Char}
    (hdata : s.data = A ++ l) (hne : l ≠ []) (hmem : '/' ∉ l) :
    endsWithChar s '/' = false := by
  rw [endsWithChar, hdata, List.getLast?_append_of_ne_nil A hne]
  cases hl : l.getLast? with
  | none => rfl
  | some c =>
    show (c == '/') = false
    refine beq_eq_false_iff_ne.mpr fun hc => ?_
    subst hc
    obtain ⟨hx, hy⟩ := @List.mem_getLast?_eq_getLast Char l '/' hl
    exact hmem (hy ▸ List.getLast_mem hx)

theorem pjoin2_plain_s (p b : String) (hb : startsWithChar b '/' = false)
    (hp1 : p ≠ "") (hp2 : endsWithChar p '/' = false) :
    pjoin2 p b = p ++ "/" ++ b := by
  rw [pjoin2, if_neg (by simp [hb]), if_neg (by simp [hp1, hp2])]

theorem pjoin2_empty_left (b : String) (hb : startsWithChar b '/' = false) :
    pjoin2 "" b = b := by
  rw [pjoin2, if_neg (by simp [hb]), if_pos (by simp)]
  exact String.ext rfl

theorem splitChar_cons_self (c : Char) (l : List Char) :
    splitOnAux [c] [] (c :: l) = [] :: splitOnAux [c] [] l := by
  rw [splitOnAux_cons, if_pos]
  · rfl
  · simp [List.isPrefixOf_cons₂]

/-- Splitting a slash-joined list of slash-free components recovers them. -/
theorem splitChar_joinComps :
    ∀ (comps : List (List Char)), comps ≠ [] →
      (∀ cp ∈ comps, '/' ∉ cp) →
      splitOnAux ['/'] [] (joinComps ['/'] comps) = comps := by
  intro comps
  induction comps with
  | nil => intro h _; exact absurd rfl h
  | cons x t ih =>
    intro _ hall
    cases t with
    | nil =>
      rw [joinComps_single]
      exact splitOnAux_single_no_mem '/' x (hall x (List.mem_cons_self _ _))
    | cons y t' =>
      rw [joinComps_cons2, List.append_assoc,
        splitOnAux_append ['/'] x [] _ (Nat.zero_le _) (noBoundaryMatch_single '/' x),
        splitOnAux_single_no_mem '/' x (hall x (List.mem_cons_self _ _)),
        show ['/'] ++ joinComps ['/'] (y :: t') = '/' :: joinComps ['/'] (y :: t') from rfl,
        splitChar_cons_self, ih (by simp) (fun cp hcp => hall cp (List.mem_cons_of_mem _ hcp))]
      simp [glue]

/-- `normpath` is the identity on an absolute path made of plain
components. -/
theorem normpath_plain (comps : List (List Char)) (hne : comps ≠ [])
    (hall : ∀ cp ∈ comps, cp ≠ [] ∧ '/' ∉ cp ∧ cp ≠ ['.'] ∧ cp ≠ ['.', '.']) :
    normpathL ('/' :: joinComps ['/'] comps) = '/' :: joinComps ['/'] comps := by
  obtain ⟨x, t, rfl⟩ : ∃ x t, comps = x :: t := by
    cases comps with
    | nil => exact absurd rfl hne
    | cons x t => exact ⟨x, t, rfl⟩
  obtain ⟨cx, xrest, hx⟩ : ∃ cx xrest, x = cx :: xrest := by
    cases hx : x with
    | nil => exact absurd hx (hall x (List.mem_cons_self _ _)).1
    | cons cx xrest => exact ⟨cx, xrest, rfl⟩
  have hcx : cx ≠ '/' := by
    intro hc
    exact (hall x (List.mem_cons_self _ _)).2.1 (by rw [hx, hc]; exact List.mem_cons_self _ _)
  have hjoin : ∃ rest, joinComps ['/'] (x :: t) = cx :: rest := by
    cases t with
    | nil => exact ⟨xrest, by rw [joinComps_single, hx]⟩
    | cons y t' =>
      refine ⟨xrest ++ ['/'] ++ joinComps ['/'] (y :: t'), ?_⟩
      rw [joinComps_cons2, hx]
      simp
  obtain ⟨rest, hrest⟩ := hjoin
  have h1 : headIs ('/' :: joinComps ['/'] (x :: t)) '/' = true := by
    show ('/' == '/') = true
    decide
  have h2 : dblSlash ('/' :: joinComps ['/'] (x :: t)) = false := by
    rw [hrest]
    show (('/' == '/') && ((cx == '/') && !(headIs rest '/'))) = false
    rw [beq_eq_false_iff_ne.mpr hcx]
    simp
  have h3 : splitOnAux ['/'] [] ('/' :: joinComps ['/'] (x :: t)) =
      [] :: (x :: t) := by
    rw [splitChar_cons_self,
      splitChar_joinComps (x :: t) (by simp) (fun cp hcp => (hall cp hcp).2.1)]
  have h4 : normComps true [] ([] :: x :: t) = x :: t := by
    rw [normComps_skip_step true [] _ (Or.inl rfl)]
    rw [normComps_all_normal true (x :: t)
      (fun cp hcp => ⟨(hall cp hcp).1, (hall cp hcp).2.2.1, (hall cp hcp).2.2.2⟩) []]
    rfl
  rw [normpathL, if_neg (by simp)]
  dsimp only
  rw [h1, h2, h3]
  rw [if_pos rfl, if_neg (by simp)]
  rw [h4]
  rw [if_neg (by simp)]
  rfl

theorem normpath_data (s : String) : (normpath s).data = normpathL s.data := rfl

theorem data_append_tail_ne_nil {a b : String} (hb : b.data ≠ []) : (a ++ b).data ≠ [] := by
  rw [strData_append]
  intro h
  exact hb (List.append_eq_nil.mp h).2

set_option maxHeartbeats 1000000 in
/-- C6 (amended): the candidate path written out explicitly, for plain
components.  `root` is the effective download root: the configured
absolute `DownloadFolder`, or the working directory when `DownloadFolder`
is the default `''`.  Every saved artifact's path is
`<root>/images/<year>/<month>/tadpole-<month>-<year>-<key>.<ext>`: the
layout always contains the extra `images` directory between the
download root and the year segment. -/
theorem candidate_eq_of_plain (ctx : Ctx) (key ext root : String)
    (hroot : (ctx.DownloadFolder = "/" ++ root ∧ plainComp root) ∨
      (ctx.DownloadFolder = "" ∧ ctx.cwd = "/" ++ root ∧ plainComp root))
    (hm : plainComp ctx.monthText) (hy : plainComp ctx.yearText)
    (hk : '/' ∉ key.data) (he : mediaExt ext) :
    candidate ctx key ext =
      "/" ++ root ++ "/" ++ "images" ++ "/" ++ ctx.yearText ++ "/" ++ ctx.monthText ++
        "/" ++ ("tadpole-" ++ ctx.monthText ++ "-" ++ ctx.yearText ++ "-" ++ key ++
          "." ++ ext) := by
  have hslash : ("/" : String).data = ['/'] := rfl
  have hf_cons : ("tadpole-" ++ ctx.monthText ++ "-" ++ ctx.yearText ++ "-" ++ key ++
      "." ++ ext).data =
      't' :: ("adpole-" ++ ctx.monthText ++ "-" ++ ctx.yearText ++ "-" ++ key ++
        "." ++ ext).data := rfl
  have hext_noslash : '/' ∉ ext.data := (mediaExt_conditions he).2.1
  have hf_noslash : '/' ∉ ("tadpole-" ++ ctx.monthText ++ "-" ++ ctx.yearText ++ "-" ++
      key ++ "." ++ ext).data := by
    intro hmemf
    simp only [strData_append, List.mem_append] at hmemf
    rcases hmemf with ((((((h | h) | h) | h) | h) | h) | h) | h
    · exact absurd h (by decide)
    · exact hm.2.1 h
    · exact absurd h (by decide)
    · exact hy.2.1 h
    · exact absurd h (by decide)
    · exact hk h
    · exact absurd h (by decide)
    · exact hext_noslash h
  have hf_plain : ("tadpole-" ++ ctx.monthText ++ "-" ++ ctx.yearText ++ "-" ++ key ++
        "." ++ ext).data ≠ [] ∧
      '/' ∉ ("tadpole-" ++ ctx.monthText ++ "-" ++ ctx.yearText ++ "-" ++ key ++
        "." ++ ext).data ∧
      ("tadpole-" ++ ctx.monthText ++ "-" ++ ctx.yearText ++ "-" ++ key ++
        "." ++ ext).data ≠ ['.'] ∧
      ("tadpole-" ++ ctx.monthText ++ "-" ++ ctx.yearText ++ "-" ++ key ++
        "." ++ ext).data ≠ ['.', '.'] := by
    refine ⟨by rw [hf_cons]; simp, hf_noslash, by rw [hf_cons]; simp, by rw [hf_cons]; simp⟩
  have hf_swc : startsWithChar ("tadpole-" ++ ctx.monthText ++ "-" ++ ctx.yearText ++
      "-" ++ key ++ "." ++ ext) '/' = false := by
    show ('t' == '/') = false
    decide
  have hplain_root : plainComp root := by
    rcases hroot with ⟨_, h⟩ | ⟨_, _, h⟩ <;> exact h
  have hall : ∀ cp ∈ [root.data, ("images" : String).data, ctx.yearText.data,
      ctx.monthText.data,
      ("tadpole-" ++ ctx.monthText ++ "-" ++ ctx.yearText ++ "-" ++ key ++
        "." ++ ext).data],
      cp ≠ [] ∧ '/' ∉ cp ∧ cp ≠ ['.'] ∧ cp ≠ ['.', '.'] := by
    intro cp hcp
    simp only [List.mem_cons, List.not_mem_nil, or_false] at hcp
    rcases hcp with rfl | rfl | rfl | rfl | rfl
    · exact hplain_root
    · exact ⟨by decide, by decide, by decide, by decide⟩
    · exact hy
    · exact hm
    · exact hf_plain
  have hnp := normpath_plain [root.data, ("images" : String).data, ctx.yearText.data,
    ctx.monthText.data,
    ("tadpole-" ++ ctx.monthText ++ "-" ++ ctx.yearText ++ "-" ++ key ++
      "." ++ ext).data] (by simp) hall
  have hrhs : ("/" ++ root ++ "/" ++ "images" ++ "/" ++ ctx.yearText ++ "/" ++
      ctx.monthText ++ "/" ++ ("tadpole-" ++ ctx.monthText ++ "-" ++ ctx.yearText ++
        "-" ++ key ++ "." ++ ext)).data =
      '/' :: joinComps ['/'] [root.data, ("images" : String).data, ctx.yearText.data,
        ctx.monthText.data,
        ("tadpole-" ++ ctx.monthText ++ "-" ++ ctx.yearText ++ "-" ++ key ++
          "." ++ ext).data] := by
    simp [strData_append, joinComps_cons2, joinComps_single, hslash,
      List.append_assoc]
  show abspath ctx.cwd
      (pjoin2 (pjoin2 (pjoin2 (pjoin2 ctx.DownloadFolder "images") ctx.yearText)
        ctx.monthText)
        ("tadpole-" ++ ctx.monthText ++ "-" ++ ctx.yearText ++ "-" ++ key ++
          "." ++ ext)) = _
  rcases hroot with ⟨hdf, hplain⟩ | ⟨hdf, hcwd, hplain⟩
  · have e1 : pjoin2 ctx.DownloadFolder "images" = ("/" ++ root) ++ "/" ++ "images" := by
      rw [hdf]
      exact pjoin2_plain_s _ _ (by decide)
        (String_ne_empty_of_data (data_append_tail_ne_nil hplain.1))
        (endsWithChar_false_of_data_append (strData_append "/" root) hplain.1 hplain.2.1)
    have e2 : pjoin2 (("/" ++ root) ++ "/" ++ "images") ctx.yearText =
        (("/" ++ root) ++ "/" ++ "images") ++ "/" ++ ctx.yearText :=
      pjoin2_plain_s _ _ (startsWithChar_false_of_plain hy.1 hy.2.1)
        (String_ne_empty_of_data (data_append_tail_ne_nil (by decide)))
        (endsWithChar_false_of_data_append (strData_append _ "images") (by decide)
          (by decide))
    have e3 : pjoin2 ((("/" ++ root) ++ "/" ++ "images") ++ "/" ++ ctx.yearText)
        ctx.monthText =
        ((("/" ++ root) ++ "/" ++ "images") ++ "/" ++ ctx.yearText) ++ "/" ++
          ctx.monthText :=
      pjoin2_plain_s _ _ (startsWithChar_false_of_plain hm.1 hm.2.1)
        (String_ne_empty_of_data (data_append_tail_ne_nil hy.1))
        (endsWithChar_false_of_data_append (strData_append _ ctx.yearText) hy.1 hy.2.1)
    have e4 : pjoin2 (((("/" ++ root) ++ "/" ++ "images") ++ "/" ++ ctx.yearText) ++
        "/" ++ ctx.monthText)
        ("tadpole-" ++ ctx.monthText ++ "-" ++ ctx.yearText ++ "-" ++ key ++
          "." ++ ext) =
        (((("/" ++ root) ++ "/" ++ "images") ++ "/" ++ ctx.yearText) ++ "/" ++
          ctx.monthText) ++ "/" ++
          ("tadpole-" ++ ctx.monthText ++ "-" ++ ctx.yearText ++ "-" ++ key ++
            "." ++ ext) :=
      pjoin2_plain_s _ _ hf_swc
        (String_ne_empty_of_data (data_append_tail_ne_nil hm.1))
        (endsWithChar_false_of_data_append (strData_append _ ctx.monthText) hm.1 hm.2.1)
    have hraw_swc : startsWithChar ((((("/" ++ root) ++ "/" ++ "images") ++ "/" ++
        ctx.yearText) ++ "/" ++ ctx.monthText) ++ "/" ++
        ("tadpole-" ++ ctx.monthText ++ "-" ++ ctx.yearText ++ "-" ++ key ++
          "." ++ ext)) '/' = true := by
      show ('/' == '/') = true
      decide
    rw [e1, e2, e3, e4, abspath, if_pos hraw_swc]
    have hdata : ((((("/" ++ root) ++ "/" ++ "images") ++ "/" ++ ctx.yearText) ++ "/" ++
        ctx.monthText) ++ "/" ++
        ("tadpole-" ++ ctx.monthText ++ "-" ++ ctx.yearText ++ "-" ++ key ++
          "." ++ ext)).data =
        '/' :: joinComps ['/'] [root.data, ("images" : String).data, ctx.yearText.data,
          ctx.monthText.data,
          ("tadpole-" ++ ctx.monthText ++ "-" ++ ctx.yearText ++ "-" ++ key ++
            "." ++ ext).data] := by
      simp [strData_append, joinComps_cons2, joinComps_single, hslash,
        List.append_assoc]
    apply String.ext
    rw [normpath_data, hdata, hnp]
  · have e1 : pjoin2 ctx.DownloadFolder "images" = "images" := by
      rw [hdf]
      exact pjoin2_empty_left _ (by decide)
    have e2 : pjoin2 ("images" : String) ctx.yearText = "images" ++ "/" ++ ctx.yearText :=
      pjoin2_plain_s _ _ (startsWithChar_false_of_plain hy.1 hy.2.1)
        (String_ne_empty_of_data (by decide)) (by decide)
    have e3 : pjoin2 ("images" ++ "/" ++ ctx.yearText) ctx.monthText =
        ("images" ++ "/" ++ ctx.yearText) ++ "/" ++ ctx.monthText :=
      pjoin2_plain_s _ _ (startsWithChar_false_of_plain hm.1 hm.2.1)
        (String_ne_empty_of_data (data_append_tail_ne_nil hy.1))
        (endsWithChar_false_of_data_append (strData_append _ ctx.yearText) hy.1 hy.2.1)
    have e4 : pjoin2 (("images" ++ "/" ++ ctx.yearText) ++ "/" ++ ctx.monthText)
        ("tadpole-" ++ ctx.monthText ++ "-" ++ ctx.yearText ++ "-" ++ key ++
          "." ++ ext) =
        (("images" ++ "/" ++ ctx.yearText) ++ "/" ++ ctx.monthText) ++ "/" ++
          ("tadpole-" ++ ctx.monthText ++ "-" ++ ctx.yearText ++ "-" ++ key ++
            "." ++ ext) :=
      pjoin2_plain_s _ _ hf_swc
        (String_ne_empty_of_data (data_append_tail_ne_nil hm.1))
        (endsWithChar_false_of_data_append (strData_append _ ctx.monthText) hm.1 hm.2.1)
    have hraw_swc : startsWithChar ((("images" ++ "/" ++ ctx.yearText) ++ "/" ++
        ctx.monthText) ++ "/" ++
        ("tadpole-" ++ ctx.monthText ++ "-" ++ ctx.yearText ++ "-" ++ key ++
          "." ++ ext)) '/' = false := by
      show ('i' == '/') = false
      decide
    rw [e1, e2, e3, e4, abspath, if_neg (by rw [hraw_swc]; exact Bool.false_ne_true)]
    have e5 : pjoin2 ctx.cwd ((("images" ++ "/" ++ ctx.yearText) ++ "/" ++
        ctx.monthText) ++ "/" ++
        ("tadpole-" ++ ctx.monthText ++ "-" ++ ctx.yearText ++ "-" ++ key ++
          "." ++ ext)) =
        ("/" ++ root) ++ "/" ++ ((("images" ++ "/" ++ ctx.yearText) ++ "/" ++
          ctx.monthText) ++ "/" ++
          ("tadpole-" ++ ctx.monthText ++ "-" ++ ctx.yearText ++ "-" ++ key ++
            "." ++ ext)) := by
      rw [hcwd]
      exact pjoin2_plain_s _ _ (by show ('i' == '/') = false; decide)
        (String_ne_empty_of_data (data_append_tail_ne_nil hplain.1))
        (endsWithChar_false_of_data_append (strData_append "/" root) hplain.1 hplain.2.1)
    rw [e5]
    have hdata : (("/" ++ root) ++ "/" ++ ((("images" ++ "/" ++ ctx.yearText) ++ "/" ++
        ctx.monthText) ++ "/" ++
        ("tadpole-" ++ ctx.monthText ++ "-" ++ ctx.yearText ++ "-" ++ key ++
          "." ++ ext))).data =
        '/' :: joinComps ['/'] [root.data, ("images" : String).data, ctx.yearText.data,
          ctx.monthText.data,
          ("tadpole-" ++ ctx.monthText ++ "-" ++ ctx.yearText ++ "-" ++ key ++
            "." ++ ext).data] := by
      simp [strData_append, joinComps_cons2, joinComps_single, hslash,
        List.append_assoc]
    apply String.ext
    rw [normpath_data, hdata, hnp]
    exact hrhs.symm

/-! ### Further string helpers for the claims -/

theorem strAppend_assoc (a b c : String) : a ++ b ++ c = a ++ (b ++ c) :=
  String.ext (by simp [strData_append, List.append_assoc])

/-- Replacement distributes over a clean concatenation with a
pattern-free tail. -/
theorem strReplace_concat (s k pat repl : String)
    (hnb : noBoundaryMatch pat.data s.data = true)
    (hk : countOccurAux pat.data [] k.data = 0) :
    strReplace (s ++ k) pat repl = strReplace s pat repl ++ k := by
  apply String.ext
  show replaceAux pat.data repl.data [] (s ++ k).data = (strReplace s pat repl ++ k).data
  rw [strData_append,
    replaceAux_append pat.data repl.data s.data [] k.data (Nat.zero_le _) hnb,
    replaceAux_of_no_occur pat.data repl.data k.data hk]
  rfl

theorem strReplace_id_of_no_occur (u pat repl : String)
    (h : countOccurAux pat.data [] u.data = 0) :
    strReplace u pat repl = u :=
  String.ext (replaceAux_of_no_occur pat.data repl.data u.data h)

/-! ### Concrete fixtures used by witnesses and counterexamples -/

def wCtx : Ctx :=
  { DownloadFolder := "", cwd := "/cwd", monthText := "Jan", yearText := "2020" }

def wCtxDl : Ctx :=
  { DownloadFolder := "/dl", cwd := "/cwd", monthText := "Jan", yearText := "2020" }

def wUrl : String := "https://www.tadpoles.com/x?&key=AAA"

def wResp503 : HttpResponse := { status := 503, contentType := "", chunks := [] }

def wRespJpg : HttpResponse :=
  { status := 200, contentType := "image/jpeg", chunks := ["data"] }

def wRespMp4 : HttpResponse :=
  { status := 200, contentType := "video/mp4", chunks := ["data"] }

def wRespHtml : HttpResponse :=
  { status := 200, contentType := "text/html", chunks := ["<html>"] }

def wFS0 : FS := { files := [], dirs := [] }

def wJpgPath : String := "/cwd/images/2020/Jan/tadpole-Jan-2020-AAA.jpg"

def wFSJpg : FS := { files := [wJpgPath], dirs := [] }

def itNoKey : Item := { ctx := wCtx, url := "https://x", responses := [] }

def it503 : Item := { ctx := wCtx, url := wUrl, responses := [wResp503] }

def itGood : Item := { ctx := wCtx, url := wUrl, responses := [wRespJpg] }

/-! ### Claim C1 -/

/-- C1: if any of the three candidate artifact files (`.jpg`, `.png`,
`.mp4`) for the URL's (year, month, key) triple already exists on disk,
`save_image` (app.py lines 249-257) returns the already-present outcome
immediately: the filesystem state is returned unchanged and the event
trace is empty, so no network request, no sleep, and no filesystem write
happens for that URL. -/
theorem c1_already_present_short_circuits (ctx : Ctx) (url a k : String)
    (rs : List HttpResponse) (fs : FS)
    (hsplit : strSplitOn url "key=" = [a, k])
    (hpresent : fs.isfile (candidate ctx k "jpg") = true ∨
      fs.isfile (candidate ctx k "mp4") = true ∨
      fs.isfile (candidate ctx k "png") = true) :
    ∃ p : String, save_image ctx url rs fs = (.alreadyPresent p, fs, []) ∧
      fs.isfile p = true := by
  rw [save_image, hsplit]
  dsimp only
  by_cases hj : fs.isfile (candidate ctx k "jpg") = true
  · rw [if_pos hj]
    exact ⟨candidate ctx k "jpg", rfl, hj⟩
  · rw [if_neg hj]
    by_cases hv : fs.isfile (candidate ctx k "mp4") = true
    · rw [if_pos hv]
      exact ⟨candidate ctx k "mp4", rfl, hv⟩
    · rw [if_neg hv]
      have hpng : fs.isfile (candidate ctx k "png") = true := by
        rcases hpresent with h | h | h
        · exact absurd h hj
        · exact absurd h hv
        · exact h
      rw [if_pos hpng]
      exact ⟨candidate ctx k "png", rfl, hpng⟩

/-- Witness for C1 at a concrete input: the jpg artifact already exists,
so the call returns already-present with no effects. -/
theorem c1_witness :
    strSplitOn wUrl "key=" = ["https://www.tadpoles.com/x?&", "AAA"] ∧
    wFSJpg.isfile (candidate wCtx "AAA" "jpg") = true ∧
    ∃ p : String, save_image wCtx wUrl [wRespJpg] wFSJpg =
      (.alreadyPresent p, wFSJpg, []) ∧ wFSJpg.isfile p = true :=
  ⟨by decide, by decide,
    c1_already_present_short_circuits wCtx wUrl "https://www.tadpoles.com/x?&" "AAA"
      [wRespJpg] wFSJpg (by decide) (Or.inl (by decide))⟩

/-! ### Claim C2 -/

/-- C2 counterexample: the network oracle holds a 503 response and then a
200 `video/mp4` response; `save_image` issues exactly one request (one
`netGet` in the trace), raises `DownloadError` on the 503, never consumes
the second response, and writes no file — refuting "logs and retries the
request … ends with the artifact saved under the .mp4 extension". -/
theorem c2_counterexample :
    save_image wCtx wUrl [wResp503, wRespMp4] wFS0 =
      (.raiseDownloadError 503 wUrl,
       { files := [], dirs := ["/cwd/images/2020/Jan"] },
       [Event.makedirs "/cwd/images/2020/Jan", Event.sleep, Event.netGet wUrl]) := by
  decide

/-- C2 (amended): on a non-success status the single request's failure
raises `DownloadError` for that item (app.py lines 298-300) — there is no
retry and no backoff sleep beyond the one pre-request rate-limit sleep:
the trace ends at the one `netGet`, and no file is written.  A 503
followed by an available 200 `video/mp4` response therefore ends the call
in `DownloadError`; the `.mp4` artifact is saved only by a later call
(e.g. the next sync run) that gets the 200 response. -/
theorem c2_non_success_raises (ctx : Ctx) (url a k : String) (resp : HttpResponse)
    (rtail : List HttpResponse) (fs : FS)
    (hsplit : strSplitOn url "key=" = [a, k])
    (hj : fs.isfile (candidate ctx k "jpg") = false)
    (hv : fs.isfile (candidate ctx k "mp4") = false)
    (hp : fs.isfile (candidate ctx k "png") = false)
    (hst : resp.status ≠ 200) :
    save_image ctx url (resp :: rtail) fs =
      (.raiseDownloadError resp.status url,
       (prepDir fs (dirname (candidate ctx k "jpg"))).1,
       (prepDir fs (dirname (candidate ctx k "jpg"))).2 ++
         [Event.sleep, Event.netGet url]) ∧
    (prepDir fs (dirname (candidate ctx k "jpg"))).1.files = fs.files ∧
    (∀ resp2 : HttpResponse, ∀ rs2 : List HttpResponse,
      resp2.status = 200 → resp2.contentType = "video/mp4" → resp2.chunks ≠ [] →
      (save_image ctx url (resp2 :: rs2)
        (prepDir fs (dirname (candidate ctx k "jpg"))).1).1 =
        .completed (candidate ctx k "mp4") ∧
      (save_image ctx url (resp2 :: rs2)
        (prepDir fs (dirname (candidate ctx k "jpg"))).1).2.1.files =
        candidate ctx k "mp4" :: fs.files) := by
  refine ⟨?_, prepDir_files fs _, ?_⟩
  · rw [save_image, hsplit]
    dsimp only
    rw [if_neg (by rw [hj]; exact Bool.false_ne_true),
      if_neg (by rw [hv]; exact Bool.false_ne_true),
      if_neg (by rw [hp]; exact Bool.false_ne_true)]
    rw [if_neg hst]
  · intro resp2 rs2 h200 hmp4 hch
    have hfiles1 := prepDir_files fs (dirname (candidate ctx k "jpg"))
    have hj' : (prepDir fs (dirname (candidate ctx k "jpg"))).1.isfile
        (candidate ctx k "jpg") = false := by
      show (prepDir fs (dirname (candidate ctx k "jpg"))).1.files.contains _ = false
      rw [hfiles1]
      exact hj
    have hv' : (prepDir fs (dirname (candidate ctx k "jpg"))).1.isfile
        (candidate ctx k "mp4") = false := by
      show (prepDir fs (dirname (candidate ctx k "jpg"))).1.files.contains _ = false
      rw [hfiles1]
      exact hv
    have hp' : (prepDir fs (dirname (candidate ctx k "jpg"))).1.isfile
        (candidate ctx k "png") = false := by
      show (prepDir fs (dirname (candidate ctx k "jpg"))).1.files.contains _ = false
      rw [hfiles1]
      exact hp
    rw [save_image, hsplit]
    dsimp only
    rw [if_neg (by rw [hj']; exact Bool.false_ne_true),
      if_neg (by rw [hv']; exact Bool.false_ne_true),
      if_neg (by rw [hp']; exact Bool.false_ne_true)]
    rw [if_pos h200, if_neg (by rw [hmp4]; decide), if_neg (by rw [hmp4]; decide),
      if_pos hmp4, writeStream]
    cases hchk : resp2.chunks with
    | nil => exact absurd hchk hch
    | cons c ct =>
      dsimp only
      refine ⟨rfl, ?_⟩
      show candidate ctx k "mp4" ::
        (prepDir (prepDir fs (dirname (candidate ctx k "jpg"))).1
          (dirname (candidate ctx k "jpg"))).1.files = _
      rw [prepDir_files, hfiles1]

/-- Witness for C2's amended theorem at a concrete 503 input. -/
theorem c2_witness :
    (save_image wCtx wUrl [wResp503] wFS0).1 =
      .raiseDownloadError wResp503.status wUrl := by
  rw [(c2_non_success_raises wCtx wUrl "https://www.tadpoles.com/x?&" "AAA" wResp503 []
    wFS0 (by decide) (by decide) (by decide) (by decide) (by decide)).1]

/-! ### Claim C3 -/

/-- C3 counterexample: the first item's URL has no `key=`, so `save_image`
raises `ValueError`; the per-URL loop (which catches only `DownloadError`)
aborts immediately, and the second, healthy item — which on its own would
have produced the jpg artifact — is never processed. -/
theorem c3_counterexample :
    download_images_loop [itNoKey, itGood] wFS0 =
      (.aborted "https://x" .raiseValueError, wFS0) ∧
    (download_images_loop [itGood] wFS0).2.files = [wJpgPath] := by
  decide

/-- C3 (amended): the per-item boundary of `download_images` (app.py
lines 320-324) contains exactly `DownloadError`: when `save_image` raises
`DownloadError` the loop logs and continues with the remaining URLs, but
when it raises a different exception (here `ValueError` from key
extraction) the exception escapes the per-item boundary and the loop
aborts. -/
theorem c3_per_item_boundary (it : Item) (rest : List Item) (fs : FS) :
    (∀ s : Nat, ∀ u : String,
      (save_image it.ctx it.url it.responses fs).1 = .raiseDownloadError s u →
      download_images_loop (it :: rest) fs =
        download_images_loop rest (save_image it.ctx it.url it.responses fs).2.1) ∧
    ((save_image it.ctx it.url it.responses fs).1 = .raiseValueError →
      download_images_loop (it :: rest) fs =
        (.aborted it.url .raiseValueError,
         (save_image it.ctx it.url it.responses fs).2.1)) := by
  have heta : save_image it.ctx it.url it.responses fs =
      ((save_image it.ctx it.url it.responses fs).1,
       (save_image it.ctx it.url it.responses fs).2.1,
       (save_image it.ctx it.url it.responses fs).2.2) := rfl
  constructor
  · intro s u hr
    rw [download_images_loop, heta, hr]
  · intro hr
    rw [download_images_loop, heta, hr]

/-- Witness for C3's amended theorem: a 503 item is absorbed and the loop
continues; a missing-`key=` item aborts the loop. -/
theorem c3_witness :
    download_images_loop [it503] wFS0 =
      download_images_loop [] (save_image it503.ctx it503.url it503.responses wFS0).2.1 ∧
    download_images_loop [itNoKey] wFS0 =
      (.aborted itNoKey.url .raiseValueError,
       (save_image itNoKey.ctx itNoKey.url itNoKey.responses wFS0).2.1) :=
  ⟨(c3_per_item_boundary it503 [] wFS0).1 503 wUrl (by decide),
   (c3_per_item_boundary itNoKey [] wFS0).2 (by decide)⟩

/-! ### Claim C4 -/

/-- C4 counterexample: the generator's end is `sys.exit(0)` (a
`SystemExit` that terminates the whole process, app.py line 202), not a
clean `StopIteration`: "stops without raising" fails, although the exit
code 0 marks the end as success. -/
theorem c4_counterexample :
    iter_monthyear [("Jan", "2020")] = ([("Jan", "2020")], GenExit.sysExit 0) ∧
    GenExit.sysExit 0 ≠ GenExit.stopIteration := by
  decide

/-- C4 (amended): for an album source with exactly N tiles,
`iter_monthyear` yields exactly those N month/year pairs, and then — when
the positional lookup at index N+1 fails — terminates the entire process
via `sys.exit(0)` (exit code 0, the expected non-error end of the run)
rather than ending the generator normally. -/
theorem c4_iter_monthyear_yields_then_sys_exit (tiles : List (String × String)) :
    iter_monthyear tiles = (tiles, GenExit.sysExit 0) := by
  induction tiles with
  | nil => rfl
  | cons t rest ih =>
    rw [iter_monthyear]
    rw [ih]

/-! ### Claim C5 -/

/-- C5: for every (year, month, key) triple — represented by its album
context and content key — at most one of the three artifacts
{key.jpg, key.png, key.mp4} exists after any number of sync runs, from
any starting state satisfying the invariant: every write is guarded by
the check that none of the three candidates exists (app.py lines
249-257), each successful download writes exactly one file, and the
guarded triple always coincides with the written file's triple. -/
theorem c5_dedup_invariant (tctx : Ctx) (tkey : String) (runs : List (List Item))
    (fs : FS) (h : numPresent tctx tkey fs.files ≤ 1) :
    numPresent tctx tkey (sync_runs runs fs).files ≤ 1 :=
  sync_runs_numPresent tctx tkey runs fs h

/-- Witness for C5: two identical runs over the same URL from an empty
filesystem leave at most one artifact of the triple. -/
theorem c5_witness :
    numPresent wCtx "AAA" (sync_runs [[itGood], [itGood]] wFS0).files ≤ 1 :=
  c5_dedup_invariant wCtx "AAA" [[itGood], [itGood]] wFS0 (by decide)

/-! ### Claim C6 -/

/-- C6 counterexample: with DownloadFolder `/dl`, the jpg artifact lands
at `/dl/images/2020/Jan/...`, not at the claimed
`/dl/2020/Jan/...`: an extra `images` directory sits between the
download root and the year segment. -/
theorem c6_counterexample :
    candidate wCtxDl "AAA" "jpg" = "/dl/images/2020/Jan/tadpole-Jan-2020-AAA.jpg" ∧
    candidate wCtxDl "AAA" "jpg" ≠ "/dl/2020/Jan/tadpole-Jan-2020-AAA.jpg" := by
  decide

/-- Witness for C6's amended layout theorem, once for a configured
absolute DownloadFolder and once for the default (current directory)
root. -/
theorem c6_witness :
    candidate wCtxDl "AAA" "jpg" =
      "/" ++ "dl" ++ "/" ++ "images" ++ "/" ++ wCtxDl.yearText ++ "/" ++
        wCtxDl.monthText ++ "/" ++ ("tadpole-" ++ wCtxDl.monthText ++ "-" ++
          wCtxDl.yearText ++ "-" ++ "AAA" ++ "." ++ "jpg") ∧
    candidate wCtx "AAA" "mp4" =
      "/" ++ "cwd" ++ "/" ++ "images" ++ "/" ++ wCtx.yearText ++ "/" ++
        wCtx.monthText ++ "/" ++ ("tadpole-" ++ wCtx.monthText ++ "-" ++
          wCtx.yearText ++ "-" ++ "AAA" ++ "." ++ "mp4") :=
  ⟨candidate_eq_of_plain wCtxDl "AAA" "jpg" "dl"
      (Or.inl ⟨by decide, by decide⟩) (by decide) (by decide) (by decide) mediaExt_jpg,
    candidate_eq_of_plain wCtx "AAA" "mp4" "cwd"
      (Or.inr ⟨by decide, by decide, by decide⟩) (by decide) (by decide) (by decide)
      mediaExt_mp4⟩

/-! ### Claim C7 -/

/-- C7 counterexample: `.../x?thumbnail=true&key=ABC` normalizes to
`https://www.tadpoles.com/x?&key=ABC` — the `thumbnail=true` text is
removed but its leading `&` survives (the second `replace` runs after the
first already consumed the flag), so the two normalized URLs do NOT
differ only in the flag's absence. -/
theorem c7_counterexample :
    normalize_url "/x?thumbnail=true&key=ABC" =
      "https://www.tadpoles.com/x?&key=ABC" ∧
    normalize_url "/x?key=ABC" = "https://www.tadpoles.com/x?key=ABC" ∧
    normalize_url "/x?thumbnail=true&key=ABC" ≠
      "https://www.tadpoles.com" ++ "/x?key=ABC" := by
  decide

/-- C7 (amended): for URLs of the two forms, normalization yields URLs
differing in the thumbnail flag's absence plus a leftover `&`, and the
content key extracted (by splitting on `key=`) from both normalized URLs
is the original key. -/
theorem c7_normalize_forms (k : String)
    (h1 : countOccur "thumbnail=true" k = 0)
    (h2 : countOccur "&thumbnail=true" k = 0)
    (h3 : countOccur "key=" k = 0) :
    normalize_url ("/x?thumbnail=true&key=" ++ k) =
      "https://www.tadpoles.com/x?&key=" ++ k ∧
    normalize_url ("/x?key=" ++ k) = "https://www.tadpoles.com/x?key=" ++ k ∧
    strSplitOn ("https://www.tadpoles.com/x?&key=" ++ k) "key=" =
      ["https://www.tadpoles.com/x?&", k] ∧
    strSplitOn ("https://www.tadpoles.com/x?key=" ++ k) "key=" =
      ["https://www.tadpoles.com/x?", k] := by
  refine ⟨?_, ?_, ?_, ?_⟩
  · show "https://www.tadpoles.com" ++
      strReplace (strReplace ("/x?thumbnail=true&key=" ++ k) "thumbnail=true" "")
        "&thumbnail=true" "" = _
    rw [strReplace_concat _ k _ _ (by decide) h1,
      show strReplace "/x?thumbnail=true&key=" "thumbnail=true" "" = "/x?&key=" by decide,
      strReplace_concat _ k _ _ (by decide) h2,
      show strReplace "/x?&key=" "&thumbnail=true" "" = "/x?&key=" by decide,
      ← strAppend_assoc,
      show ("https://www.tadpoles.com" : String) ++ "/x?&key=" =
        "https://www.tadpoles.com/x?&key=" by decide]
  · show "https://www.tadpoles.com" ++
      strReplace (strReplace ("/x?key=" ++ k) "thumbnail=true" "")
        "&thumbnail=true" "" = _
    rw [strReplace_concat _ k _ _ (by decide) h1,
      show strReplace "/x?key=" "thumbnail=true" "" = "/x?key=" by decide,
      strReplace_concat _ k _ _ (by decide) h2,
      show strReplace "/x?key=" "&thumbnail=true" "" = "/x?key=" by decide,
      ← strAppend_assoc,
      show ("https://www.tadpoles.com" : String) ++ "/x?key=" =
        "https://www.tadpoles.com/x?key=" by decide]
  · have hs : splitOnAux ("key=").data []
        (("https://www.tadpoles.com/x?&key=").data ++ k.data) =
        glue (splitOnAux ("key=").data [] ("https://www.tadpoles.com/x?&key=").data)
          (splitOnAux ("key=").data [] k.data) :=
      splitOnAux_append _ _ [] _ (Nat.zero_le _) (by decide)
    show (splitOnAux ("key=").data []
      (("https://www.tadpoles.com/x?&key=").data ++ k.data)).map String.mk = _
    rw [hs,
      show splitOnAux ("key=").data [] ("https://www.tadpoles.com/x?&key=").data =
        [("https://www.tadpoles.com/x?&").data, []] by decide,
      splitOnAux_of_no_occur _ k.data h3]
    rfl
  · have hs : splitOnAux ("key=").data []
        (("https://www.tadpoles.com/x?key=").data ++ k.data) =
        glue (splitOnAux ("key=").data [] ("https://www.tadpoles.com/x?key=").data)
          (splitOnAux ("key=").data [] k.data) :=
      splitOnAux_append _ _ [] _ (Nat.zero_le _) (by decide)
    show (splitOnAux ("key=").data []
      (("https://www.tadpoles.com/x?key=").data ++ k.data)).map String.mk = _
    rw [hs,
      show splitOnAux ("key=").data [] ("https://www.tadpoles.com/x?key=").data =
        [("https://www.tadpoles.com/x?").data, []] by decide,
      splitOnAux_of_no_occur _ k.data h3]
    rfl

/-- Witness for C7's amended theorem at the spec's key `ABC`. -/
theorem c7_witness :
    countOccur "thumbnail=true" "ABC" = 0 ∧
    normalize_url ("/x?thumbnail=true&key=" ++ "ABC") =
      "https://www.tadpoles.com/x?&key=" ++ "ABC" ∧
    strSplitOn ("https://www.tadpoles.com/x?key=" ++ "ABC") "key=" =
      ["https://www.tadpoles.com/x?", "ABC"] :=
  ⟨by decide, (c7_normalize_forms "ABC" (by decide) (by decide) (by decide)).1,
    (c7_normalize_forms "ABC" (by decide) (by decide) (by decide)).2.2.2⟩

/-! ### Claim C8 -/

/-- C8 counterexample: a match that is already an absolute URL is
prefixed again (app.py line 227 prepends the host unconditionally),
producing a malformed double-host URL instead of being emitted
unchanged. -/
theorem c8_counterexample :
    normalize_url "https://www.tadpoles.com/m/obj?key=AAA" =
      "https://www.tadpoles.comhttps://www.tadpoles.com/m/obj?key=AAA" ∧
    normalize_url "https://www.tadpoles.com/m/obj?key=AAA" ≠
      "https://www.tadpoles.com/m/obj?key=AAA" := by
  decide

/-- C8 (amended): the per-match transform prepends the site's media host
to every match unconditionally — there is no relative-path test — so an
absolute match is prefixed a second time rather than emitted unchanged. -/
theorem c8_always_prepends_host (u : String)
    (h1 : countOccur "thumbnail=true" u = 0)
    (h2 : countOccur "&thumbnail=true" u = 0) :
    normalize_url u = "https://www.tadpoles.com" ++ u := by
  show "https://www.tadpoles.com" ++
    strReplace (strReplace u "thumbnail=true" "") "&thumbnail=true" "" = _
  rw [strReplace_id_of_no_occur u _ _ h1, strReplace_id_of_no_occur u _ _ h2]

/-- Witness for C8's amended theorem on an absolute URL. -/
theorem c8_witness :
    countOccur "thumbnail=true" "https://host/a?key=Z" = 0 ∧
    normalize_url "https://host/a?key=Z" =
      "https://www.tadpoles.com" ++ "https://host/a?key=Z" :=
  ⟨by decide, c8_always_prepends_host "https://host/a?key=Z" (by decide) (by decide)⟩

/-! ### Claim C9 -/

/-- C9: an HTTP 200 response whose content type is none of `image/jpeg`,
`image/png`, `video/mp4` makes `save_image` return the
skipped-unsupported-type outcome (app.py lines 284-286): no file is
created at any path (the file list is unchanged; only the album directory
may be created) and no exception is raised. -/
theorem c9_unsupported_type_skips (ctx : Ctx) (url a k : String) (resp : HttpResponse)
    (rtail : List HttpResponse) (fs : FS)
    (hsplit : strSplitOn url "key=" = [a, k])
    (hj : fs.isfile (candidate ctx k "jpg") = false)
    (hv : fs.isfile (candidate ctx k "mp4") = false)
    (hp : fs.isfile (candidate ctx k "png") = false)
    (hst : resp.status = 200)
    (h1 : resp.contentType ≠ "image/jpeg")
    (h2 : resp.contentType ≠ "image/png")
    (h3 : resp.contentType ≠ "video/mp4") :
    save_image ctx url (resp :: rtail) fs =
      (.skippedUnsupported resp.contentType,
       (prepDir fs (dirname (candidate ctx k "jpg"))).1,
       (prepDir fs (dirname (candidate ctx k "jpg"))).2 ++
         [Event.sleep, Event.netGet url]) ∧
    (prepDir fs (dirname (candidate ctx k "jpg"))).1.files = fs.files := by
  refine ⟨?_, prepDir_files fs _⟩
  rw [save_image, hsplit]
  dsimp only
  rw [if_neg (by rw [hj]; exact Bool.false_ne_true),
    if_neg (by rw [hv]; exact Bool.false_ne_true),
    if_neg (by rw [hp]; exact Bool.false_ne_true)]
  rw [if_pos hst, if_neg h1, if_neg h2, if_neg h3]

/-- Witness for C9 at a concrete `text/html` response. -/
theorem c9_witness :
    wRespHtml.contentType = "text/html" ∧
    (save_image wCtx wUrl [wRespHtml] wFS0 =
      (.skippedUnsupported wRespHtml.contentType,
       (prepDir wFS0 (dirname (candidate wCtx "AAA" "jpg"))).1,
       (prepDir wFS0 (dirname (candidate wCtx "AAA" "jpg"))).2 ++
         [Event.sleep, Event.netGet wUrl]) ∧
     (prepDir wFS0 (dirname (candidate wCtx "AAA" "jpg"))).1.files = wFS0.files) :=
  ⟨rfl,
    c9_unsupported_type_skips wCtx wUrl "https://www.tadpoles.com/x?&" "AAA" wRespHtml
      [] wFS0 (by decide) (by decide) (by decide) (by decide) (by decide) (by decide)
      (by decide) (by decide)⟩

/-! ### Claim C10 -/

/-- C10: if `key=` does not occur exactly once in the URL, the unpacking
`_, key = url.split("key=")` (app.py line 235) raises `ValueError` before
the dedup check or any network call (empty event trace, filesystem
unchanged); since `ValueError` is not a `DownloadError`, the orchestrator's
per-URL handler does not absorb it and the loop aborts. -/
theorem c10_value_error_on_bad_key (ctx : Ctx) (url : String) (rs : List HttpResponse)
    (fs : FS) (rest : List Item)
    (h : countOccur "key=" url ≠ 1) :
    save_image ctx url rs fs = (.raiseValueError, fs, []) ∧
    download_images_loop ({ ctx := ctx, url := url, responses := rs } :: rest) fs =
      (.aborted url .raiseValueError, fs) := by
  have hlen : (strSplitOn url "key=").length ≠ 2 := by
    show ((splitOnAux ("key=").data [] url.data).map String.mk).length ≠ 2
    rw [List.length_map, splitOnAux_length]
    intro hc
    apply h
    show countOccurAux ("key=").data [] url.data = 1
    omega
  have hsave : save_image ctx url rs fs = (.raiseValueError, fs, []) := by
    rw [save_image]
    rcases hs : strSplitOn url "key=" with _ | ⟨a, _ | ⟨k, _ | ⟨x, t⟩⟩⟩
    · rfl
    · rfl
    · rw [hs] at hlen
      simp at hlen
    · rfl
  refine ⟨hsave, ?_⟩
  rw [download_images_loop]
  dsimp only
  rw [hsave]

/-- Witness for C10 at a URL with no `key=` at all. -/
theorem c10_witness :
    countOccur "key=" "https://x" ≠ 1 ∧
    (save_image wCtx "https://x" [] wFS0 = (.raiseValueError, wFS0, []) ∧
     download_images_loop [itNoKey] wFS0 =
       (.aborted "https://x" .raiseValueError, wFS0)) :=
  ⟨by decide, c10_value_error_on_bad_key wCtx "https://x" [] wFS0 [] (by decide)⟩

end Tadpole
